import Mathlib

/-!
Verification of the web2figma streaming transport layer.

This file shallowly embeds the sender-side `StreamController` / `ImageProcessor`
(scraper), the receiver-side `ImageAssembler` and the Figma-plugin stream
consumer (`handleStreamNodeBatch` / `handleImageChunk` / `handleStreamComplete`),
and proves the spec's transport properties about these definitions.

Modelling conventions:
* JS `Map` objects are modelled as insertion-ordered association lists
  (`List (κ × α)`); `set` on an existing key updates in place, on a fresh key
  appends, matching JS `Map` iteration-order semantics.
* Byte buffers (`Buffer` / `Uint8Array`) are `List Nat`.
* `Date.now()` values are passed explicitly as `Nat` arguments.
* The bounded-concurrency `Promise.all` wave in `processAllImages` is modelled
  by sequential per-node processing: each node's mutation depends only on that
  node and the fetch result, and the statistics increments commute, so the wave
  interleaving is unobservable in the final state.
* Network fetch + sharp transcoding (`fetchAndConvert`) is an external effect;
  it is abstracted as an oracle `fetch : String → Option (List Nat)` returning
  the final processed bytes (`none` = the failure path of `fetchAndConvert`).
* The external renderer `createEnhancedNode` is abstracted as an oracle
  `render : SNode → Bool` (`false` = it returned `null`).
-/

namespace Web2Figma

/-! ### JS `Map` as an insertion-ordered association list -/

/-- `Map.get(k)`: first (unique) binding for `k`. -/
def mapGet? {κ α : Type} [BEq κ] (m : List (κ × α)) (k : κ) : Option α :=
  (m.find? (fun p => p.1 == k)).map (·.2)

/-- `Map.has(k)`. -/
def mapHas {κ α : Type} [BEq κ] (m : List (κ × α)) (k : κ) : Bool :=
  (mapGet? m k).isSome

/-- `Map.set(k, v)`: update in place if present, else append (JS insertion order). -/
def mapSet {κ α : Type} [BEq κ] (m : List (κ × α)) (k : κ) (v : α) : List (κ × α) :=
  if mapHas m k then m.map (fun p => if p.1 == k then (k, v) else p) else m ++ [(k, v)]

/-- `Map.delete(k)`. -/
def mapDelete {κ α : Type} [BEq κ] (m : List (κ × α)) (k : κ) : List (κ × α) :=
  m.filter (fun p => !(p.1 == k))

/-! ### Configuration (`src/scraper/src/config.ts`) -/

/-- `CONFIG` from `config.ts`; fields are env-overridable, the defaults below. -/
structure Config where
  IMAGE_SIZE_THRESHOLD : Nat
  IMAGE_CHUNK_SIZE : Nat
  MAX_CONCURRENT_IMAGES : Nat
deriving Repr, DecidableEq

/-- The hard-coded defaults of `config.ts` (102400 B threshold, 64 KiB chunks). -/
def defaultConfig : Config := ⟨102400, 65536, 5⟩

/-- `Math.ceil(a / b)` for positive integers, as the code computes chunk counts. -/
def jsCeilDiv (a b : Nat) : Nat := (a + b - 1) / b

/-! ### `ProcessingStats` (`image-processor.ts`) -/

structure ProcessingStats where
  totalImages : Nat
  inlineImages : Nat
  streamedImages : Nat
  failedImages : Nat
  totalBytesProcessed : Nat
deriving Repr, DecidableEq

/-- The all-zero stats the `ImageProcessor` starts with (and `resetStats`). -/
def initialStats : ProcessingStats := ⟨0, 0, 0, 0, 0⟩

/-! ### IR nodes, restricted to the fields the transport layer reads/writes -/

/-- `imageChunkRef` descriptor attached to a node that will be streamed. -/
structure ChunkRef where
  totalSize : Nat
  totalChunks : Nat
  chunkSize : Nat
  isStreamed : Bool
deriving Repr, DecidableEq

/-- An `IRNode` together with the mutable annotations the controller adds in
place (`imageSource`, `imageData`, `imageChunkRef`, `_imageBuffer`). -/
structure SNode where
  id : String
  ntype : String
  imageUrl : Option String
  imageSource : Option String
  imageData : Option (List Nat)
  imageChunkRef : Option ChunkRef
  imageBuffer : Option (List Nat)
deriving Repr, DecidableEq

/-! ### `ImageProcessor.processImageForNode` -/

/-- `processImageForNode`: counts the image, consults the fetch/convert oracle,
classifies inline vs streamed by `buffer.length >= CONFIG.IMAGE_SIZE_THRESHOLD`,
and updates the session counters. Returns the `{buffer, shouldStream}` result
(`none` on missing source or failed fetch). -/
def processImageForNode (cfg : Config) (fetch : String → Option (List Nat))
    (st : ProcessingStats) (node : SNode) :
    ProcessingStats × Option (List Nat × Bool) :=
  match node.imageSource with
  | none => (st, none)
  | some url =>
      let st1 := { st with totalImages := st.totalImages + 1 }
      match fetch url with
      | none => ({ st1 with failedImages := st1.failedImages + 1 }, none)
      | some buf =>
          let st2 := { st1 with
            totalBytesProcessed := st1.totalBytesProcessed + buf.length }
          if buf.length ≥ cfg.IMAGE_SIZE_THRESHOLD then
            ({ st2 with streamedImages := st2.streamedImages + 1 }, some (buf, true))
          else
            ({ st2 with inlineImages := st2.inlineImages + 1 }, some (buf, false))

/-! ### `ImageAssembler` (plugin side) -/

/-- `ChunkBuffer` entry of the reassembly buffer. -/
structure ChunkBuffer where
  nodeId : String
  chunks : List (Nat × List Nat)
  totalChunks : Nat
  receivedChunks : Nat
  createdAt : Nat
deriving Repr, DecidableEq

/-- The `ImageAssembler`'s private `buffers` map. -/
structure AssemblerState where
  buffers : List (String × ChunkBuffer)
deriving Repr, DecidableEq

def emptyAssembler : AssemblerState := ⟨[]⟩

/-- The assembler's fixed `TIMEOUT_MS = 30000`. -/
def ASSEMBLER_TIMEOUT_MS : Nat := 30000

namespace ImageAssembler

/-- `addChunk`: create the entry on first contact (recording `totalChunks` and
`Date.now()`), then record the chunk unless its index was already seen. -/
def addChunk (st : AssemblerState) (nodeId : String) (chunkIndex : Nat)
    (data : List Nat) (totalChunks : Nat) (now : Nat) : AssemblerState :=
  let st1 : AssemblerState :=
    if mapHas st.buffers nodeId then st
    else ⟨mapSet st.buffers nodeId ⟨nodeId, [], totalChunks, 0, now⟩⟩
  match mapGet? st1.buffers nodeId with
  | none => st1
  | some buffer =>
      if mapHas buffer.chunks chunkIndex then st1
      else
        ⟨mapSet st1.buffers nodeId
          { buffer with
            chunks := mapSet buffer.chunks chunkIndex data,
            receivedChunks := buffer.receivedChunks + 1 }⟩

/-- `isComplete`: received-count equals `totalChunks`. -/
def isComplete (st : AssemblerState) (nodeId : String) : Bool :=
  match mapGet? st.buffers nodeId with
  | none => false
  | some b => b.receivedChunks == b.totalChunks

/-- The `for (index = 0; index < totalChunks; ...)` collection loop of
`assemble`: gathers chunks strictly by ascending index, failing if any index
is absent. -/
def collectChunks (chunks : List (Nat × List Nat)) : Nat → Option (List (List Nat))
  | 0 => some []
  | n + 1 =>
      match collectChunks chunks n, mapGet? chunks n with
      | some init, some last => some (init ++ [last])
      | _, _ => none

/-- `assemble`: returns the concatenated bytes and removes the entry on
success; on a missing entry, incomplete entry, or missing index it returns
nothing and leaves the buffer map unchanged. -/
def assemble (st : AssemblerState) (nodeId : String) :
    Option (List Nat) × AssemblerState :=
  match mapGet? st.buffers nodeId with
  | none => (none, st)
  | some b =>
      if isComplete st nodeId then
        match collectChunks b.chunks b.totalChunks with
        | none => (none, st)
        | some parts => (some parts.flatten, ⟨mapDelete st.buffers nodeId⟩)
      else (none, st)

/-- `cleanupTimedOut`: evict every entry with `now - createdAt > TIMEOUT_MS`
(regardless of progress) and return the evicted ids. -/
def cleanupTimedOut (st : AssemblerState) (now : Nat) : List String × AssemblerState :=
  (((st.buffers.filter (fun p => ASSEMBLER_TIMEOUT_MS < now - p.2.createdAt)).map (·.1)),
    ⟨st.buffers.filter (fun p => !(ASSEMBLER_TIMEOUT_MS < now - p.2.createdAt : Bool))⟩)

end ImageAssembler

/-! ### `StreamController` (`stream-controller.ts`, sender side) -/

/-- Wire envelopes of the streaming protocol, with the controller-assigned
`sequenceNumber` as the last field. `nodesMsg` carries one batch of nodes. -/
inductive Envelope where
  | tokens (seq : Nat)
  | fonts (seq : Nat)
  | nodesMsg (batch : List SNode) (seq : Nat)
  | imageChunk (nodeId : String) (chunkIndex : Nat) (totalChunks : Nat)
      (data : List Nat) (seq : Nat)
  | progress (stage : String) (current : Nat) (total : Nat) (seq : Nat)
  | errorMsg (msg : String) (seq : Nat)
  | complete (totalNodes : Nat) (totalImages : Nat) (inlineImages : Nat)
      (streamedImages : Nat) (seq : Nat)
deriving Repr, DecidableEq

/-- The payload handed to `streamExtractedPage`; fonts and tokens are opaque,
only their presence matters to the controller. -/
structure StreamPayload where
  nodes : List SNode
  fonts : List Unit
  tokens : Option Unit
deriving Repr, DecidableEq

/-- `attachImageSources`: give every IMAGE node with an image url an
`imageSource` whose `resolvedUrl` is that url. -/
def attachImageSources (nodes : List SNode) : List SNode :=
  nodes.map (fun n =>
    if n.ntype == "IMAGE" then
      match n.imageUrl with
      | some url => { n with imageSource := some url }
      | none => n
    else n)

/-- The filter of `processAllImages`: `node.type === 'IMAGE' && node.imageSource`. -/
def qualifies (n : SNode) : Bool := n.ntype == "IMAGE" && n.imageSource.isSome

/-- The in-place node mutation `processAllImages` performs with a processing
result: attach the `imageChunkRef` descriptor and stash `_imageBuffer` for a
streamed image, or attach the inline `imageData` bytes. -/
def applyProcessResult (cfg : Config) (node : SNode) :
    Option (List Nat × Bool) → SNode
  | none => node
  | some (buf, true) =>
      { node with
        imageChunkRef := some
          ⟨buf.length, jsCeilDiv buf.length cfg.IMAGE_CHUNK_SIZE,
           cfg.IMAGE_CHUNK_SIZE, true⟩,
        imageBuffer := some buf }
  | some (buf, false) => { node with imageData := some buf }

/-- Per-node processing pass of `processAllImages` over the full node array
(wave concurrency modelled sequentially; see the header comment). -/
def processNodes (cfg : Config) (fetch : String → Option (List Nat)) :
    ProcessingStats → List SNode → ProcessingStats × List SNode
  | st, [] => (st, [])
  | st, n :: rest =>
      if qualifies n then
        let r := processImageForNode cfg fetch st n
        let rest' := processNodes cfg fetch r.1 rest
        (rest'.1, applyProcessResult cfg n r.2 :: rest'.2)
      else
        let rest' := processNodes cfg fetch st rest
        (rest'.1, n :: rest'.2)

/-- `processAllImages`: run the processing pass, then account for the
`PROGRESS {stage: "processing_images"}` envelope sent after each
`MAX_CONCURRENT_IMAGES`-sized wave (`current = min(i + concurrency, total)`).
Returns (stats, next sequence number, mutated nodes, emitted envelopes). -/
def processAllImages (cfg : Config) (fetch : String → Option (List Nat))
    (st : ProcessingStats) (seq : Nat) (nodes : List SNode) :
    ProcessingStats × Nat × List SNode × List Envelope :=
  let m := (nodes.filter qualifies).length
  if m = 0 then (st, seq, nodes, [])
  else
    let conc := max 1 cfg.MAX_CONCURRENT_IMAGES
    let r := processNodes cfg fetch st nodes
    let waves := (List.range (jsCeilDiv m conc)).map (fun k => min ((k + 1) * conc) m)
    (r.1, seq + waves.length, r.2,
      (waves.enum.map (fun p => Envelope.progress "processing_images" p.2 m (seq + p.1))))

/-- `streamNodes`: partition the node array into batches of 50 (preserving
order) and emit one NODES envelope per batch. -/
def streamNodes (seq : Nat) (nodes : List SNode) : Nat × List Envelope :=
  let batches := (List.range (jsCeilDiv nodes.length 50)).map
    (fun k => (nodes.drop (k * 50)).take 50)
  (seq + batches.length,
    batches.enum.map (fun p => Envelope.nodesMsg p.2 (seq + p.1)))

/-- `buffer.slice(chunkIndex * chunkSize, min(start + chunkSize, length))`:
the data of the `chunkIndex`-th IMAGE_CHUNK envelope (also the batch slicing
pattern of `streamNodes`). -/
def chunkSliceAt {α : Type} (chunkSize : Nat) (buf : List α) (k : Nat) : List α :=
  (buf.drop (k * chunkSize)).take chunkSize

/-- The per-node loop of `streamImageChunks` over the filtered streamed nodes:
`j` is the position of the node in that list (`indexOf` under object identity),
`total` its length. A node whose `_imageBuffer` is missing is skipped
(`continue`) without emitting anything. The dead `getD 0` arm covers the
source's non-null assertion `node.imageChunkRef!`, which the caller's filter
guarantees is never exercised. -/
def streamChunksLoop (cfg : Config) (total : Nat) :
    Nat → Nat → List SNode → Nat × List Envelope
  | seq, _, [] => (seq, [])
  | seq, j, n :: rest =>
      match n.imageBuffer with
      | none => streamChunksLoop cfg total seq (j + 1) rest
      | some buf =>
          let tc := (n.imageChunkRef.map ChunkRef.totalChunks).getD 0
          let r := streamChunksLoop cfg total (seq + tc + 1) (j + 1) rest
          (r.1,
            ((List.range tc).map (fun k =>
              Envelope.imageChunk n.id k tc
                (chunkSliceAt cfg.IMAGE_CHUNK_SIZE buf k) (seq + k)))
            ++ Envelope.progress "streaming_images" (j + 1) total (seq + tc) :: r.2)

/-- `streamImageChunks`: for every node with `imageChunkRef.isStreamed`, emit
its IMAGE_CHUNK envelopes in ascending index order followed by a
`PROGRESS {stage: "streaming_images"}` envelope. -/
def streamImageChunks (cfg : Config) (seq : Nat) (nodes : List SNode) :
    Nat × List Envelope :=
  let streamedNodes := nodes.filter
    (fun n => (n.imageChunkRef.map ChunkRef.isStreamed).getD false)
  streamChunksLoop cfg streamedNodes.length seq 0 streamedNodes

/-- `streamExtractedPage` (non-throwing path): attach sources, process all
images (emitting processing PROGRESS), then TOKENS (if present), FONTS (if
non-empty), the NODES batches, the image chunk stream, and COMPLETE. -/
def streamExtractedPage (cfg : Config) (fetch : String → Option (List Nat))
    (p : StreamPayload) : List Envelope :=
  let totalNodes := p.nodes.length
  let nodes0 := attachImageSources p.nodes
  let a := processAllImages cfg fetch initialStats 0 nodes0
  let st := a.1
  let seq1 := a.2.1
  let nodes1 := a.2.2.1
  let envsA := a.2.2.2
  let tok : Nat × List Envelope :=
    if p.tokens.isSome then (seq1 + 1, [Envelope.tokens seq1]) else (seq1, [])
  let fon : Nat × List Envelope :=
    if p.fonts.length > 0 then (tok.1 + 1, [Envelope.fonts tok.1]) else (tok.1, [])
  let nds := streamNodes fon.1 nodes1
  let chs := streamImageChunks cfg nds.1 nodes1
  envsA ++ tok.2 ++ fon.2 ++ nds.2 ++ chs.2
    ++ [Envelope.complete totalNodes st.totalImages st.inlineImages
          st.streamedImages chs.1]

/-- The session stats as they stand when `sendComplete` reads them. -/
def sessionStats (cfg : Config) (fetch : String → Option (List Nat))
    (p : StreamPayload) : ProcessingStats :=
  (processAllImages cfg fetch initialStats 0 (attachImageSources p.nodes)).1

/-! ### Stream consumer (plugin `code.ts`, receiver side) -/

/-- How an id got into `streamCreatedNodes`: via `createEnhancedNode`
(`rendered`) or via `createPlaceholderForFailedImage` (`placeholder`). -/
inductive CreatedKind where
  | rendered
  | placeholder
deriving Repr, DecidableEq

/-- The plugin's per-session stream state. -/
structure ConsumerState where
  pendingImageNodes : List (String × SNode)
  streamCreatedNodes : List (String × CreatedKind)
  assembler : AssemblerState
  totalStreamNodesProcessed : Nat
deriving Repr, DecidableEq

/-- `resetStreamState` (as run by the TOKENS handler). -/
def resetConsumerState : ConsumerState := ⟨[], [], emptyAssembler, 0⟩

/-- `handleStreamNodeBatch`: defer nodes carrying a streamed `imageChunkRef`
into the Pending Item Table; materialize everything else immediately via the
renderer oracle, recording successes in `streamCreatedNodes`. -/
def handleStreamNodeBatch (render : SNode → Bool) (st : ConsumerState)
    (nodes : List SNode) : ConsumerState :=
  nodes.foldl (fun st n =>
    if (n.imageChunkRef.map ChunkRef.isStreamed).getD false then
      { st with pendingImageNodes := mapSet st.pendingImageNodes n.id n }
    else if render n then
      { st with
        streamCreatedNodes := mapSet st.streamCreatedNodes n.id CreatedKind.rendered,
        totalStreamNodesProcessed := st.totalStreamNodesProcessed + 1 }
    else st) st

/-- `createPendingImageNode`: look up the deferred node, assemble its bytes
(removing the assembler entry on success), attach them, materialize, and drop
the id from the Pending Item Table (even if the renderer fails). -/
def createPendingImageNode (render : SNode → Bool) (st : ConsumerState)
    (nodeId : String) : ConsumerState :=
  match mapGet? st.pendingImageNodes nodeId with
  | none => st
  | some node =>
      match ImageAssembler.assemble st.assembler nodeId with
      | (none, _) => st
      | (some bytes, asm') =>
          let node' := { node with imageData := some bytes, imageChunkRef := none }
          let st1 := { st with assembler := asm' }
          let st2 :=
            if render node' then
              { st1 with
                streamCreatedNodes :=
                  mapSet st1.streamCreatedNodes nodeId CreatedKind.rendered,
                totalStreamNodesProcessed := st1.totalStreamNodesProcessed + 1 }
            else st1
          { st2 with pendingImageNodes := mapDelete st2.pendingImageNodes nodeId }

/-- `handleImageChunk`: forward to the assembler; on the completion signal,
materialize the pending node. -/
def handleImageChunk (render : SNode → Bool) (st : ConsumerState)
    (nodeId : String) (chunkIndex : Nat) (data : List Nat) (totalChunks : Nat)
    (now : Nat) : ConsumerState :=
  let asm := ImageAssembler.addChunk st.assembler nodeId chunkIndex data totalChunks now
  let st1 := { st with assembler := asm }
  if ImageAssembler.isComplete asm nodeId then createPendingImageNode render st1 nodeId
  else st1

/-- The placeholder-substitution loop body shared by both sweeps of
`handleStreamComplete`: for each id still in the Pending Item Table, append a
`createPlaceholderForFailedImage` node, record it, and clear the entry. -/
def placeholderSweep (st : ConsumerState) (ids : List String) : ConsumerState :=
  ids.foldl (fun st nodeId =>
    match mapGet? st.pendingImageNodes nodeId with
    | none => st
    | some _ =>
        { st with
          streamCreatedNodes := mapSet st.streamCreatedNodes nodeId CreatedKind.placeholder,
          pendingImageNodes := mapDelete st.pendingImageNodes nodeId,
          totalStreamNodesProcessed := st.totalStreamNodesProcessed + 1 }) st

/-- One iteration of the finalization poll: sweep the assembler and
placeholder every newly expired pending id. -/
def completeLoopIter (st : ConsumerState) (now : Nat) : ConsumerState :=
  let r := ImageAssembler.cleanupTimedOut st.assembler now
  placeholderSweep { st with assembler := r.2 } r.1

/-- The bounded finalization poll of `handleStreamComplete`: the `ticks` list
gives the `Date.now()` value of each 100 ms iteration the wall-clock budget
admits; the loop exits early once nothing is pending. -/
def completeLoop (st : ConsumerState) : List Nat → ConsumerState
  | [] => st
  | now :: rest =>
      if st.pendingImageNodes.isEmpty then st
      else completeLoop (completeLoopIter st now) rest

/-- `handleStreamComplete`: run the bounded poll, then force-placeholder every
id still pending when the budget elapses. -/
def handleStreamComplete (st : ConsumerState) (ticks : List Nat) : ConsumerState :=
  let st1 := completeLoop st ticks
  placeholderSweep st1 (st1.pendingImageNodes.map (·.1))

/-! ### Derived definitions used to state the pipeline claims -/

/-- The per-node effect of `processAllImages` on one node (its result is
independent of the statistics accumulator, so `initialStats` is a canonical
choice). -/
def annotateNode (cfg : Config) (fetch : String → Option (List Nat))
    (n : SNode) : SNode :=
  if qualifies n then
    applyProcessResult cfg n (processImageForNode cfg fetch initialStats n).2
  else n

/-- Recognizes an IMAGE_CHUNK envelope addressed to `nid`. -/
def isChunkOf (nid : String) : Envelope → Bool
  | Envelope.imageChunk nid' _ _ _ _ => nid' == nid
  | _ => false

/-- Recognizes a `PROGRESS {stage: "processing_images"}` envelope. -/
def isProcessingProgress : Envelope → Bool
  | Envelope.progress stage _ _ _ => stage == "processing_images"
  | _ => false

/-! ### Association-list map lemmas -/

section MapLemmas

variable {κ α : Type} [BEq κ]

theorem mapGet?_nil (k : κ) : mapGet? ([] : List (κ × α)) k = none := rfl

theorem mapGet?_cons (p : κ × α) (m : List (κ × α)) (k : κ) :
    mapGet? (p :: m) k = if p.1 == k then some p.2 else mapGet? m k := by
  by_cases h : p.1 == k <;> simp [mapGet?, List.find?_cons, h]

theorem mapGet?_append (xs ys : List (κ × α)) (k : κ) :
    mapGet? (xs ++ ys) k =
      match mapGet? xs k with
      | some v => some v
      | none => mapGet? ys k := by
  induction xs with
  | nil => simp [mapGet?]
  | cons p xs ih =>
      rw [List.cons_append, mapGet?_cons, mapGet?_cons]
      by_cases h : p.1 == k <;> simp [h, ih]

variable [LawfulBEq κ]

theorem mapGet?_map_replace_self (m : List (κ × α)) (k : κ) (v : α)
    (h : mapHas m k = true) :
    mapGet? (m.map (fun p => if p.1 == k then (k, v) else p)) k = some v := by
  induction m with
  | nil => simp [mapHas, mapGet?] at h
  | cons p m ih =>
      by_cases hp : p.1 == k
      · simp [hp, mapGet?_cons]
      · have h' : mapHas m k = true := by
          simpa [mapHas, mapGet?_cons, hp] using h
        simpa [hp, mapGet?_cons] using ih h'

theorem mapGet?_map_replace_ne (m : List (κ × α)) (k : κ) (v : α) (k' : κ)
    (h : k' ≠ k) :
    mapGet? (m.map (fun p => if p.1 == k then (k, v) else p)) k' = mapGet? m k' := by
  induction m with
  | nil => simp [mapGet?]
  | cons p m ih =>
      by_cases hp : p.1 == k
      · have hpk : p.1 = k := by exact eq_of_beq hp
        have h1 : (k == k') = false := by
          simpa using fun hh => h (by simpa using hh.symm)
        have h2 : (p.1 == k') = false := by
          simpa [hpk] using fun hh => h (by simpa using hh.symm)
        simp [hp, mapGet?_cons, h1, h2, ih]
      · by_cases hq : p.1 == k'
        · simp [hp, mapGet?_cons, hq]
        · simp [hp, mapGet?_cons, hq, ih]

theorem mapGet?_set_self (m : List (κ × α)) (k : κ) (v : α) :
    mapGet? (mapSet m k v) k = some v := by
  unfold mapSet
  by_cases h : mapHas m k
  · simpa [h] using mapGet?_map_replace_self m k v h
  · have hget : mapGet? m k = none := by
      have := h
      unfold mapHas at this
      cases hh : mapGet? m k with
      | none => rfl
      | some b => rw [hh] at this; simp at this
    simp [h, mapGet?_append, hget, mapGet?_cons]

theorem mapGet?_set_ne (m : List (κ × α)) (k : κ) (v : α) (k' : κ) (h : k' ≠ k) :
    mapGet? (mapSet m k v) k' = mapGet? m k' := by
  unfold mapSet
  by_cases hh : mapHas m k
  · simpa [hh] using mapGet?_map_replace_ne m k v k' h
  · have h1 : (k == k') = false := by
      simpa using fun hkk => h (by simpa using hkk.symm)
    rw [if_neg hh, mapGet?_append]
    cases hg : mapGet? m k' with
    | some b => rfl
    | none => simp [mapGet?_cons, h1, mapGet?_nil]

omit [LawfulBEq κ] in
theorem mapGet?_delete_self (m : List (κ × α)) (k : κ) :
    mapGet? (mapDelete m k) k = none := by
  induction m with
  | nil => rfl
  | cons p m ih =>
      by_cases hp : p.1 == k
      · simpa [mapDelete, hp] using ih
      · simpa [mapDelete, List.filter_cons, hp, mapGet?_cons] using ih

theorem mapGet?_delete_ne (m : List (κ × α)) (k k' : κ) (h : k' ≠ k) :
    mapGet? (mapDelete m k) k' = mapGet? m k' := by
  induction m with
  | nil => rfl
  | cons p m ih =>
      by_cases hp : p.1 == k
      · have hpk : p.1 = k := eq_of_beq hp
        have h2 : (p.1 == k') = false := by
          simpa [hpk] using fun hh => h (by simpa using hh.symm)
        simpa [mapDelete, List.filter_cons, hp, mapGet?_cons, h2] using ih
      · by_cases hq : p.1 == k'
        · simp [mapDelete, List.filter_cons, hp, mapGet?_cons, hq]
        · simpa [mapDelete, List.filter_cons, hp, mapGet?_cons, hq] using ih

theorem mapGet?_isSome_iff (m : List (κ × α)) (k : κ) :
    (mapGet? m k).isSome = true ↔ k ∈ m.map (·.1) := by
  induction m with
  | nil => simp [mapGet?]
  | cons p m ih =>
      by_cases hp : p.1 == k
      · have hpk : p.1 = k := eq_of_beq hp
        simp [mapGet?_cons, hp, hpk]
      · have hpk : ¬ p.1 = k := by simpa using hp
        rw [mapGet?_cons, if_neg hp]
        simp only [List.map_cons, List.mem_cons]
        rw [ih]
        constructor
        · exact Or.inr
        · rintro (hh | hh)
          · exact absurd hh.symm hpk
          · exact hh

theorem mapGet?_eq_some_iff_mem (m : List (κ × α))
    (hnd : (m.map (·.1)).Nodup) (k : κ) (b : α) :
    mapGet? m k = some b ↔ (k, b) ∈ m := by
  induction m with
  | nil => simp [mapGet?]
  | cons p m ih =>
      rw [List.map_cons, List.nodup_cons] at hnd
      by_cases hp : p.1 == k
      · have hpk : p.1 = k := eq_of_beq hp
        have hnot : (k, b) ∉ m := by
          intro hmem
          exact hnd.1 (by
            subst hpk
            exact List.mem_map.mpr ⟨(p.1, b), hmem, rfl⟩)
        constructor
        · intro hsome
          rw [mapGet?_cons, if_pos hp] at hsome
          have hb : p.2 = b := by simpa using hsome
          exact List.mem_cons.mpr (Or.inl (Prod.ext_iff.mpr ⟨hpk.symm, hb.symm⟩))
        · intro hmem
          rcases List.mem_cons.mp hmem with hh | hh
          · rw [mapGet?_cons, if_pos hp, ← hh]
          · exact absurd hh hnot
      · have hpk : ¬ p.1 = k := by simpa using hp
        rw [mapGet?_cons, if_neg hp, ih hnd.2]
        constructor
        · intro hmem; exact List.mem_cons_of_mem _ hmem
        · intro hmem
          rcases List.mem_cons.mp hmem with hh | hh
          · exact absurd (congrArg Prod.fst hh).symm hpk
          · exact hh

theorem mapGet?_filter (m : List (κ × α)) (hnd : (m.map (·.1)).Nodup)
    (q : κ × α → Bool) (k : κ) :
    mapGet? (m.filter q) k =
      match mapGet? m k with
      | some b => if q (k, b) then some b else none
      | none => none := by
  induction m with
  | nil => simp [mapGet?]
  | cons p m ih =>
      rw [List.map_cons, List.nodup_cons] at hnd
      by_cases hp : p.1 == k
      · have hpk : p.1 = k := eq_of_beq hp
        have hknot : ¬ (mapGet? (m.filter q) k).isSome = true := by
          rw [mapGet?_isSome_iff]
          intro hmem
          apply hnd.1
          rw [← hpk] at hmem
          have hsub : (m.filter q).map (·.1) ⊆ m.map (·.1) := by
            intro x hx
            rcases List.mem_map.mp hx with ⟨pr, hpr, hx2⟩
            exact List.mem_map.mpr ⟨pr, List.mem_of_mem_filter hpr, hx2⟩
          rw [hpk]
          rw [hpk] at hmem
          exact hsub hmem
        have hknone : mapGet? (m.filter q) k = none := by
          cases hg : mapGet? (m.filter q) k with
          | none => rfl
          | some b => rw [hg] at hknot; simp at hknot
        cases hq : q p with
        | true =>
            have hpe : (k, p.2) = p := by rw [← hpk]
            simp [List.filter_cons, hq, mapGet?_cons, hp, hpe]
        | false =>
            have hpe : q (k, p.2) = false := by rw [show (k, p.2) = p by rw [← hpk], hq]
            simp [List.filter_cons, hq, mapGet?_cons, hp, hknone, hpe]
      · cases hq : q p with
        | true => simp [List.filter_cons, hq, mapGet?_cons, hp, ih hnd.2]
        | false => simp [List.filter_cons, hq, mapGet?_cons, hp, ih hnd.2]

theorem mapGet?_rangeAssoc {β : Type} (f : Nat → β) (N i : Nat) :
    mapGet? ((List.range N).map (fun k => (k, f k))) i =
      if i < N then some (f i) else none := by
  induction N with
  | zero => simp [mapGet?]
  | succ n ih =>
      rw [List.range_succ, List.map_append, mapGet?_append, ih]
      by_cases h : i < n
      · simp [h, Nat.lt_succ_of_lt h]
      · by_cases h2 : i = n
        · subst h2
          simp [h, mapGet?_cons, Nat.lt_succ_self]
        · have h3 : ¬ i < n + 1 := by omega
          have h4 : (n == i) = false := by
            simpa using fun hh : n = i => h2 hh.symm
          simp [h, h3, mapGet?_cons, h4, mapGet?_nil]

end MapLemmas

/-! ### Assembler lemmas -/

namespace ImageAssembler

/-- After any `addChunk`, the node's entry exists and holds the chunk index. -/
theorem addChunk_spec (st : AssemblerState) (nid : String) (k : Nat)
    (d : List Nat) (tc now : Nat) :
    ∃ b, mapGet? (addChunk st nid k d tc now).buffers nid = some b ∧
      mapHas b.chunks k = true := by
  unfold addChunk
  by_cases h1 : mapHas st.buffers nid
  · rw [if_pos h1]
    have h1' := h1
    unfold mapHas at h1'
    cases hg : mapGet? st.buffers nid with
    | none => rw [hg] at h1'; simp at h1'
    | some b0 =>
        simp only [hg]
        by_cases h2 : mapHas b0.chunks k
        · rw [if_pos h2]
          exact ⟨b0, hg, h2⟩
        · rw [if_neg h2]
          refine ⟨_, mapGet?_set_self _ _ _, ?_⟩
          unfold mapHas
          rw [mapGet?_set_self]
          rfl
  · rw [if_neg h1]
    simp only [mapGet?_set_self]
    have h2 : mapHas (⟨nid, [], tc, 0, now⟩ : ChunkBuffer).chunks k = false := rfl
    rw [h2]
    simp only [Bool.false_eq_true, if_false]
    refine ⟨_, mapGet?_set_self _ _ _, ?_⟩
    unfold mapHas
    rw [mapGet?_set_self]
    rfl

/-- A missing index below `totalChunks` makes the collection loop fail. -/
theorem collectChunks_none (chunks : List (Nat × List Nat)) (n i : Nat)
    (hi : i < n) (hm : mapGet? chunks i = none) :
    collectChunks chunks n = none := by
  induction n with
  | zero => omega
  | succ m ih =>
      by_cases h : i = m
      · subst h
        cases hc : collectChunks chunks i <;> simp [collectChunks, hc, hm]
      · have hlt : i < m := by omega
        simp [collectChunks, ih hlt]

end ImageAssembler

/-! ### Arithmetic and slicing lemmas for the chunk round-trip -/

theorem jsCeilDiv_zero (C : Nat) (hC : 0 < C) : jsCeilDiv 0 C = 0 := by
  unfold jsCeilDiv
  rw [Nat.zero_add]
  exact Nat.div_eq_of_lt (by omega)

theorem jsCeilDiv_succ (L C : Nat) (hC : 0 < C) (hL : 0 < L) :
    jsCeilDiv L C = jsCeilDiv (L - C) C + 1 := by
  unfold jsCeilDiv
  rcases Nat.lt_or_ge L C with h | h
  · have h2 : L - C = 0 := by omega
    rw [h2]
    have h1 : (L + C - 1) / C = 1 := Nat.div_eq_of_lt_le (by omega) (by omega)
    have h3 : (0 + C - 1) / C = 0 := Nat.div_eq_of_lt (by omega)
    rw [h1, h3]
  · have heq : L + C - 1 = (L - C + C - 1) + C := by omega
    rw [heq, Nat.add_div_right _ hC]

/-- Concatenating the controller's slices in ascending index order recovers
the buffer. -/
theorem chunkSlices_flatten {α : Type} (C : Nat) (hC : 0 < C) (buf : List α) :
    ((List.range (jsCeilDiv buf.length C)).map (chunkSliceAt C buf)).flatten = buf := by
  suffices h : ∀ n (buf : List α), buf.length ≤ n →
      ((List.range (jsCeilDiv buf.length C)).map (chunkSliceAt C buf)).flatten = buf from
    h buf.length buf le_rfl
  intro n
  induction n with
  | zero =>
      intro buf hlen
      have : buf = [] := List.eq_nil_of_length_eq_zero (by omega)
      subst this
      simp [jsCeilDiv_zero C hC]
  | succ n ihn =>
      intro buf hlen
      by_cases h0 : buf.length = 0
      · have : buf = [] := List.eq_nil_of_length_eq_zero h0
        subst this
        simp [jsCeilDiv_zero C hC]
      · have hpos : 0 < buf.length := Nat.pos_of_ne_zero h0
        rw [jsCeilDiv_succ _ _ hC hpos, List.range_succ_eq_map, List.map_cons,
          List.map_map]
        have hcomp : (chunkSliceAt C buf ∘ Nat.succ) = chunkSliceAt C (buf.drop C) := by
          funext k
          unfold chunkSliceAt
          have hmul : Nat.succ k * C = C + k * C := by rw [Nat.succ_mul]; omega
          simp only [Function.comp_apply]
          rw [List.drop_drop, hmul]
        rw [hcomp]
        have hlen' : (buf.drop C).length = buf.length - C := List.length_drop _ _
        have hih := ihn (buf.drop C) (by rw [hlen']; omega)
        rw [hlen'] at hih
        rw [List.flatten_cons, hih]
        have h0slice : chunkSliceAt C buf 0 = buf.take C := by
          unfold chunkSliceAt
          simp
        rw [h0slice, List.take_append_drop]

/-- State of the assembler after delivering chunks `0..j-1` in order. -/
theorem addChunk_fold (nid : String) (d : Nat → List Nat) (N : Nat)
    (times : Nat → Nat) :
    ∀ j, (List.range j).foldl
        (fun st k => ImageAssembler.addChunk st nid k (d k) N (times k)) emptyAssembler
      = if j = 0 then emptyAssembler
        else ⟨[(nid, ⟨nid, (List.range j).map (fun k => (k, d k)), N, j, times 0⟩)]⟩ := by
  intro j
  induction j with
  | zero => simp
  | succ j ih =>
      rw [List.range_succ, List.foldl_append, ih]
      simp only [List.foldl_cons, List.foldl_nil]
      by_cases hj : j = 0
      · subst hj
        simp only [if_pos rfl]
        simp [ImageAssembler.addChunk, mapSet, mapHas, mapGet?, List.find?, emptyAssembler]
      · rw [if_neg hj]
        have hget : mapGet? ([(nid,
            (⟨nid, (List.range j).map (fun k => (k, d k)), N, j, times 0⟩ : ChunkBuffer))])
            nid = some ⟨nid, (List.range j).map (fun k => (k, d k)), N, j, times 0⟩ := by
          simp [mapGet?, List.find?_cons]
        have hhas : mapHas ([(nid,
            (⟨nid, (List.range j).map (fun k => (k, d k)), N, j, times 0⟩ : ChunkBuffer))])
            nid = true := by
          unfold mapHas
          rw [hget]
          rfl
        have hchunkget : mapGet?
            ((List.range j).map (fun k => (k, d k))) j = none := by
          rw [mapGet?_rangeAssoc]
          simp
        have hchunkhas : mapHas
            ((List.range j).map (fun k => (k, d k))) j = false := by
          unfold mapHas
          rw [hchunkget]
          rfl
        unfold ImageAssembler.addChunk
        simp only [hhas, if_true, hget, hchunkhas, Bool.false_eq_true, if_false]
        congr 1
        have hsetouter : ∀ v : ChunkBuffer, mapSet ([(nid,
            (⟨nid, (List.range j).map (fun k => (k, d k)), N, j, times 0⟩ : ChunkBuffer))])
            nid v = [(nid, v)] := by
          intro v
          simp [mapSet, hhas]
        rw [hsetouter]
        have hsetinner : mapSet ((List.range j).map (fun k => (k, d k))) j (d j)
            = (List.range (j + 1)).map (fun k => (k, d k)) := by
          unfold mapSet
          rw [show mapHas ((List.range j).map (fun k => (k, d k))) j = false from by
            unfold mapHas; rw [hchunkget]; rfl]
          simp only [Bool.false_eq_true, if_false]
          rw [List.range_succ, List.map_append]
          rfl
        rw [hsetinner, List.range_succ]

/-- Collecting all present chunks `0..N-1` returns them in ascending order. -/
theorem collectChunks_all (chunks : List (Nat × List Nat)) (N : Nat)
    (f : Nat → List Nat) (h : ∀ i, i < N → mapGet? chunks i = some (f i)) :
    ImageAssembler.collectChunks chunks N = some ((List.range N).map f) := by
  induction N with
  | zero => simp [ImageAssembler.collectChunks]
  | succ n ih =>
      have hin := ih (fun i hi => h i (Nat.lt_succ_of_lt hi))
      have hn := h n (Nat.lt_succ_self n)
      rw [List.range_succ, List.map_append]
      simp [ImageAssembler.collectChunks, hin, hn]

/-- Assembling a complete entry holding chunks `0..N-1` concatenates them in
ascending order and clears the buffer. -/
theorem assemble_singleton (nid : String) (N : Nat) (f : Nat → List Nat) (t0 : Nat) :
    ImageAssembler.assemble
      ⟨[(nid, ⟨nid, (List.range N).map (fun k => (k, f k)), N, N, t0⟩)]⟩ nid
      = (some ((List.range N).map f).flatten, emptyAssembler) := by
  have hget : mapGet? ([(nid,
      (⟨nid, (List.range N).map (fun k => (k, f k)), N, N, t0⟩ : ChunkBuffer))]) nid
      = some ⟨nid, (List.range N).map (fun k => (k, f k)), N, N, t0⟩ := by
    simp [mapGet?, List.find?_cons]
  have hcomp : ImageAssembler.isComplete
      ⟨[(nid, ⟨nid, (List.range N).map (fun k => (k, f k)), N, N, t0⟩)]⟩ nid = true := by
    unfold ImageAssembler.isComplete
    rw [hget]
    simp
  have hcol : ImageAssembler.collectChunks ((List.range N).map (fun k => (k, f k))) N
      = some ((List.range N).map f) :=
    collectChunks_all _ N f (fun i hi => by rw [mapGet?_rangeAssoc]; simp [hi])
  unfold ImageAssembler.assemble
  simp only [hget, hcomp, if_true, hcol]
  have hdel : mapDelete ([(nid,
      (⟨nid, (List.range N).map (fun k => (k, f k)), N, N, t0⟩ : ChunkBuffer))]) nid
      = [] := by
    simp [mapDelete]
  simp [hdel, emptyAssembler]

/-! ### Claims C7, C8, C9: reassembly buffer contracts -/

/-- C7: `assemble` succeeds exactly once per item: a successful call removes
the entry, so any subsequent `assemble` for that id returns nothing and leaves
the state untouched; and if any chunk index in `[0, totalChunks)` is absent at
assembly time, `assemble` returns no result and leaves the buffer unchanged. -/
theorem assemble_exactly_once (st : AssemblerState) (nid : String) :
    (∀ bs st', ImageAssembler.assemble st nid = (some bs, st') →
       mapGet? st'.buffers nid = none ∧
       ImageAssembler.assemble st' nid = (none, st')) ∧
    (∀ b i, mapGet? st.buffers nid = some b → i < b.totalChunks →
       mapGet? b.chunks i = none →
       ImageAssembler.assemble st nid = (none, st)) := by
  constructor
  · intro bs st' h
    unfold ImageAssembler.assemble at h
    cases hg : mapGet? st.buffers nid with
    | none => rw [hg] at h; simp at h
    | some b =>
        simp only [hg] at h
        by_cases hc : ImageAssembler.isComplete st nid
        · rw [if_pos hc] at h
          cases hcol : ImageAssembler.collectChunks b.chunks b.totalChunks with
          | none => simp only [hcol] at h; simp at h
          | some parts =>
              simp only [hcol] at h
              rw [Prod.ext_iff] at h
              obtain ⟨h1, h2⟩ := h
              simp only at h2
              subst h2
              refine ⟨mapGet?_delete_self _ _, ?_⟩
              simp [ImageAssembler.assemble, mapGet?_delete_self]
        · rw [if_neg hc] at h
          simp at h
  · intro b i hg hi hm
    unfold ImageAssembler.assemble
    simp only [hg]
    by_cases hc : ImageAssembler.isComplete st nid
    · rw [if_pos hc, ImageAssembler.collectChunks_none b.chunks b.totalChunks i hi hm]
    · rw [if_neg hc]

/-- Witness for C7 at concrete states: a complete one-chunk entry assembles
once and never again; an entry missing index 1 of 3 yields nothing. -/
theorem assemble_exactly_once_witness :
    (ImageAssembler.assemble (⟨[("n", ⟨"n", [(0, [7])], 1, 1, 5⟩)]⟩ : AssemblerState) "n"
        = (some [7], (⟨[]⟩ : AssemblerState)) ∧
      mapGet? ((⟨[]⟩ : AssemblerState)).buffers "n" = none ∧
      ImageAssembler.assemble (⟨[]⟩ : AssemblerState) "n"
        = (none, (⟨[]⟩ : AssemblerState))) ∧
    (mapGet? (⟨[("m", ⟨"m", [(0, [1]), (2, [3])], 3, 2, 0⟩)]⟩ : AssemblerState).buffers "m"
        = some ⟨"m", [(0, [1]), (2, [3])], 3, 2, 0⟩ ∧
      (1 : Nat) < 3 ∧
      mapGet? (⟨"m", [(0, [1]), (2, [3])], 3, 2, 0⟩ : ChunkBuffer).chunks 1 = none ∧
      ImageAssembler.assemble
          (⟨[("m", ⟨"m", [(0, [1]), (2, [3])], 3, 2, 0⟩)]⟩ : AssemblerState) "m"
        = (none, ⟨[("m", ⟨"m", [(0, [1]), (2, [3])], 3, 2, 0⟩)]⟩)) := by
  refine ⟨⟨by decide, ?_, ?_⟩, by decide, by decide, by decide, ?_⟩
  · exact ((assemble_exactly_once ⟨[("n", ⟨"n", [(0, [7])], 1, 1, 5⟩)]⟩ "n").1
      [7] ⟨[]⟩ (by decide)).1
  · exact ((assemble_exactly_once ⟨[("n", ⟨"n", [(0, [7])], 1, 1, 5⟩)]⟩ "n").1
      [7] ⟨[]⟩ (by decide)).2
  · exact (assemble_exactly_once ⟨[("m", ⟨"m", [(0, [1]), (2, [3])], 3, 2, 0⟩)]⟩ "m").2
      ⟨"m", [(0, [1]), (2, [3])], 3, 2, 0⟩ 1 (by decide) (by decide) (by decide)

/-- C8: redelivering chunk index `k` is a complete no-op: the buffer state —
in particular the entry's received-count — is exactly as after the single
delivery, so the subsequently assembled bytes are identical too. -/
theorem duplicate_chunk_ignored (st : AssemblerState) (nid : String) (k : Nat)
    (d : List Nat) (tc now : Nat) (d' : List Nat) (tc' now' : Nat) :
    ImageAssembler.addChunk (ImageAssembler.addChunk st nid k d tc now) nid k d' tc' now'
      = ImageAssembler.addChunk st nid k d tc now ∧
    ImageAssembler.assemble
        (ImageAssembler.addChunk (ImageAssembler.addChunk st nid k d tc now) nid k d' tc' now') nid
      = ImageAssembler.assemble (ImageAssembler.addChunk st nid k d tc now) nid := by
  obtain ⟨b, hg, hchunks⟩ := ImageAssembler.addChunk_spec st nid k d tc now
  have hmain : ∀ s1 : AssemblerState, mapGet? s1.buffers nid = some b →
      ImageAssembler.addChunk s1 nid k d' tc' now' = s1 := by
    intro s1 hg1
    have hhas1 : mapHas s1.buffers nid = true := by
      unfold mapHas
      rw [hg1]
      rfl
    unfold ImageAssembler.addChunk
    simp only [hhas1, if_true, hg1, hchunks]
  exact ⟨hmain _ hg, by rw [hmain _ hg]⟩

/-- C9: a sweep evicts exactly the entries strictly older than the 30 s
timeout — independent of received-chunk progress — removing them from the
buffer and returning their ids; entries at or under the timeout age keep
their bindings untouched. -/
theorem cleanup_evicts_exactly_expired (st : AssemblerState) (now : Nat)
    (hnd : (st.buffers.map (·.1)).Nodup) :
    (∀ id b, mapGet? st.buffers id = some b →
       ((ASSEMBLER_TIMEOUT_MS < now - b.createdAt →
           mapGet? (ImageAssembler.cleanupTimedOut st now).2.buffers id = none ∧
           id ∈ (ImageAssembler.cleanupTimedOut st now).1) ∧
        (now - b.createdAt ≤ ASSEMBLER_TIMEOUT_MS →
           mapGet? (ImageAssembler.cleanupTimedOut st now).2.buffers id = some b))) ∧
    (∀ id, id ∈ (ImageAssembler.cleanupTimedOut st now).1 →
       ∃ b, mapGet? st.buffers id = some b ∧
         ASSEMBLER_TIMEOUT_MS < now - b.createdAt) := by
  simp only [ImageAssembler.cleanupTimedOut]
  constructor
  · intro id b hg
    constructor
    · intro hexp
      constructor
      · rw [mapGet?_filter st.buffers hnd _ id, hg]
        simp [hexp]
      · have hmem : (id, b) ∈ st.buffers :=
          (mapGet?_eq_some_iff_mem st.buffers hnd id b).mp hg
        exact List.mem_map.mpr
          ⟨(id, b), List.mem_filter.mpr ⟨hmem, by simp [hexp]⟩, rfl⟩
    · intro hfresh
      rw [mapGet?_filter st.buffers hnd _ id, hg]
      have hnot : ¬ ASSEMBLER_TIMEOUT_MS < now - b.createdAt := by omega
      simp [hnot]
  · intro id hmemid
    rcases List.mem_map.mp hmemid with ⟨p, hpf, hpid⟩
    have hp := List.mem_filter.mp hpf
    have hq : ASSEMBLER_TIMEOUT_MS < now - p.2.createdAt := by simpa using hp.2
    refine ⟨p.2, ?_, ?_⟩
    · apply (mapGet?_eq_some_iff_mem st.buffers hnd id p.2).mpr
      rw [← hpid, Prod.mk.eta]
      exact hp.1
    · exact hq

/-- Witness for C9: at `now = 30001`, an entry created at 0 holding 1 of 3
chunks is evicted and returned, while an entry aged 1 ms survives intact. -/
theorem cleanup_evicts_exactly_expired_witness :
    ((List.map (·.1) (⟨[("a", ⟨"a", [(0, [1])], 3, 1, 0⟩),
        ("b", ⟨"b", [], 2, 0, 30000⟩)]⟩ : AssemblerState).buffers).Nodup ∧
      mapGet? (⟨[("a", ⟨"a", [(0, [1])], 3, 1, 0⟩),
        ("b", ⟨"b", [], 2, 0, 30000⟩)]⟩ : AssemblerState).buffers "a"
        = some ⟨"a", [(0, [1])], 3, 1, 0⟩ ∧
      ASSEMBLER_TIMEOUT_MS < 30001 - 0) ∧
    (mapGet? (ImageAssembler.cleanupTimedOut
        (⟨[("a", ⟨"a", [(0, [1])], 3, 1, 0⟩), ("b", ⟨"b", [], 2, 0, 30000⟩)]⟩ :
          AssemblerState) 30001).2.buffers "a" = none ∧
      "a" ∈ (ImageAssembler.cleanupTimedOut
        (⟨[("a", ⟨"a", [(0, [1])], 3, 1, 0⟩), ("b", ⟨"b", [], 2, 0, 30000⟩)]⟩ :
          AssemblerState) 30001).1) ∧
    mapGet? (ImageAssembler.cleanupTimedOut
        (⟨[("a", ⟨"a", [(0, [1])], 3, 1, 0⟩), ("b", ⟨"b", [], 2, 0, 30000⟩)]⟩ :
          AssemblerState) 30001).2.buffers "b" = some ⟨"b", [], 2, 0, 30000⟩ := by
  refine ⟨⟨by decide, by decide, by decide⟩, ?_, ?_⟩
  · exact ((cleanup_evicts_exactly_expired
      ⟨[("a", ⟨"a", [(0, [1])], 3, 1, 0⟩), ("b", ⟨"b", [], 2, 0, 30000⟩)]⟩ 30001
      (by decide)).1 "a" ⟨"a", [(0, [1])], 3, 1, 0⟩ (by decide)).1 (by decide)
  · exact ((cleanup_evicts_exactly_expired
      ⟨[("a", ⟨"a", [(0, [1])], 3, 1, 0⟩), ("b", ⟨"b", [], 2, 0, 30000⟩)]⟩ 30001
      (by decide)).1 "b" ⟨"b", [], 2, 0, 30000⟩ (by decide)).2 (by decide)

/-! ### Claim C2: chunk round-trip integrity -/

/-- C2: for a source buffer of length `L ≥ 1` and chunk size `C ≥ 1`, feeding
the Controller's `N = ceil(L/C)` slices in order `0..N-1` to `addChunk` and
then calling `assemble` returns bytes bit-identical to the original buffer
(and clears the entry). -/
theorem chunk_roundtrip (nid : String) (buf : List Nat) (C : Nat)
    (times : Nat → Nat) (hL : 0 < buf.length) (hC : 0 < C) :
    ImageAssembler.assemble
      ((List.range (jsCeilDiv buf.length C)).foldl
        (fun st k => ImageAssembler.addChunk st nid k (chunkSliceAt C buf k)
          (jsCeilDiv buf.length C) (times k)) emptyAssembler) nid
      = (some buf, emptyAssembler) := by
  have hN : 0 < jsCeilDiv buf.length C := by
    unfold jsCeilDiv
    exact Nat.div_pos (by omega) hC
  rw [addChunk_fold nid (chunkSliceAt C buf) (jsCeilDiv buf.length C) times]
  rw [if_neg (by omega)]
  rw [assemble_singleton]
  rw [chunkSlices_flatten C hC buf]

/-- Witness for C2: the buffer `[1,2,3,4,5]` with chunk size 2 (3 chunks)
round-trips bit-identically. -/
theorem chunk_roundtrip_witness :
    0 < ([1, 2, 3, 4, 5] : List Nat).length ∧ 0 < 2 ∧
    ImageAssembler.assemble
      ((List.range (jsCeilDiv ([1, 2, 3, 4, 5] : List Nat).length 2)).foldl
        (fun st k => ImageAssembler.addChunk st "img" k
          (chunkSliceAt 2 [1, 2, 3, 4, 5] k)
          (jsCeilDiv ([1, 2, 3, 4, 5] : List Nat).length 2) k) emptyAssembler) "img"
      = (some [1, 2, 3, 4, 5], emptyAssembler) :=
  ⟨by decide, by decide,
    chunk_roundtrip "img" [1, 2, 3, 4, 5] 2 (fun k => k) (by decide) (by decide)⟩

/-! ### Claims C4, C10: classification boundary and statistics partition -/

/-- C4: for a successfully processed payload the decision is chunked iff the
final byte length reaches the configured threshold (`length >= threshold`,
boundary closed on the chunked side), inline iff it is strictly below. -/
theorem threshold_boundary (cfg : Config) (fetch : String → Option (List Nat))
    (st : ProcessingStats) (n : SNode) (url : String) (buf : List Nat)
    (hsrc : n.imageSource = some url) (hf : fetch url = some buf) :
    ((processImageForNode cfg fetch st n).2 = some (buf, true) ↔
       cfg.IMAGE_SIZE_THRESHOLD ≤ buf.length) ∧
    ((processImageForNode cfg fetch st n).2 = some (buf, false) ↔
       buf.length < cfg.IMAGE_SIZE_THRESHOLD) := by
  unfold processImageForNode
  simp only [hsrc, hf]
  by_cases h : buf.length ≥ cfg.IMAGE_SIZE_THRESHOLD
  · rw [if_pos h]
    refine ⟨⟨fun _ => h, fun _ => rfl⟩, ⟨fun hh => ?_, fun hh => absurd h (by omega)⟩⟩
    simp at hh
  · rw [if_neg h]
    refine ⟨⟨fun hh => ?_, fun hh => absurd hh h⟩, ⟨fun _ => by omega, fun _ => rfl⟩⟩
    simp at hh

/-- Witness for C4: with threshold 100000, a 99999-byte payload classifies
inline and a 100000-byte payload classifies chunked. -/
theorem threshold_boundary_witness :
    (processImageForNode ⟨100000, 65536, 5⟩ (fun _ => some (List.replicate 99999 0))
        initialStats ⟨"a", "IMAGE", some "u", some "u", none, none, none⟩).2
      = some (List.replicate 99999 0, false) ∧
    (processImageForNode ⟨100000, 65536, 5⟩ (fun _ => some (List.replicate 100000 0))
        initialStats ⟨"a", "IMAGE", some "u", some "u", none, none, none⟩).2
      = some (List.replicate 100000 0, true) :=
  ⟨(threshold_boundary ⟨100000, 65536, 5⟩ (fun _ => some (List.replicate 99999 0))
      initialStats ⟨"a", "IMAGE", some "u", some "u", none, none, none⟩ "u"
      (List.replicate 99999 0) rfl rfl).2.mpr
      (by rw [List.length_replicate]; decide),
   (threshold_boundary ⟨100000, 65536, 5⟩ (fun _ => some (List.replicate 100000 0))
      initialStats ⟨"a", "IMAGE", some "u", some "u", none, none, none⟩ "u"
      (List.replicate 100000 0) rfl rfl).1.mpr
      (by rw [List.length_replicate])⟩

/-- One `processImageForNode` call preserves
`inline + streamed + failed = total`. -/
theorem processImageForNode_preserves (cfg : Config)
    (fetch : String → Option (List Nat)) (st : ProcessingStats) (n : SNode)
    (h : st.inlineImages + st.streamedImages + st.failedImages = st.totalImages) :
    ((processImageForNode cfg fetch st n).1).inlineImages
      + ((processImageForNode cfg fetch st n).1).streamedImages
      + ((processImageForNode cfg fetch st n).1).failedImages
      = ((processImageForNode cfg fetch st n).1).totalImages := by
  unfold processImageForNode
  cases hs : n.imageSource with
  | none => simpa using h
  | some url =>
      cases hf : fetch url with
      | none => simp [hf]; omega
      | some buf =>
          by_cases hth : buf.length ≥ cfg.IMAGE_SIZE_THRESHOLD
          · simp [hf, hth]; omega
          · simp [hf, hth]; omega

/-- The whole processing pass preserves the statistics partition. -/
theorem processNodes_preserves (cfg : Config)
    (fetch : String → Option (List Nat)) :
    ∀ (nodes : List SNode) (st : ProcessingStats),
      st.inlineImages + st.streamedImages + st.failedImages = st.totalImages →
      ((processNodes cfg fetch st nodes).1).inlineImages
        + ((processNodes cfg fetch st nodes).1).streamedImages
        + ((processNodes cfg fetch st nodes).1).failedImages
        = ((processNodes cfg fetch st nodes).1).totalImages := by
  intro nodes
  induction nodes with
  | nil => intro st h; simpa [processNodes] using h
  | cons n rest ih =>
      intro st h
      unfold processNodes
      by_cases hq : qualifies n
      · simp only [hq, if_true]
        exact ih _ (processImageForNode_preserves cfg fetch st n h)
      · simp only [hq, Bool.false_eq_true, if_false]
        exact ih _ h

/-- C10: every processed image is accounted exactly once — after any sequence
of `processImageForNode` calls starting from fresh statistics,
`inline + streamed + failed = total`; each counting call increments exactly
one of the three outcome counters together with the total, and a call on a
node with no image source leaves the statistics untouched. -/
theorem stats_account_every_image (cfg : Config)
    (fetch : String → Option (List Nat)) :
    (∀ (st : ProcessingStats) (n : SNode),
       st.inlineImages + st.streamedImages + st.failedImages = st.totalImages →
       ((processImageForNode cfg fetch st n).1).inlineImages
         + ((processImageForNode cfg fetch st n).1).streamedImages
         + ((processImageForNode cfg fetch st n).1).failedImages
         = ((processImageForNode cfg fetch st n).1).totalImages) ∧
    (∀ (st : ProcessingStats) (n : SNode), n.imageSource = none →
       processImageForNode cfg fetch st n = (st, none)) ∧
    (∀ nodes : List SNode,
       ((processNodes cfg fetch initialStats nodes).1).inlineImages
         + ((processNodes cfg fetch initialStats nodes).1).streamedImages
         + ((processNodes cfg fetch initialStats nodes).1).failedImages
         = ((processNodes cfg fetch initialStats nodes).1).totalImages) := by
  refine ⟨processImageForNode_preserves cfg fetch, ?_, ?_⟩
  · intro st n h
    unfold processImageForNode
    rw [h]
  · intro nodes
    exact processNodes_preserves cfg fetch nodes initialStats rfl

/-- Witness for C10 at a concrete state and nodes. -/
theorem stats_account_every_image_witness :
    ((initialStats.inlineImages + initialStats.streamedImages
        + initialStats.failedImages = initialStats.totalImages) ∧
      (((processImageForNode ⟨3, 2, 5⟩ (fun _ => some [1]) initialStats
          ⟨"a", "IMAGE", some "u", some "u", none, none, none⟩).1).inlineImages
        + ((processImageForNode ⟨3, 2, 5⟩ (fun _ => some [1]) initialStats
          ⟨"a", "IMAGE", some "u", some "u", none, none, none⟩).1).streamedImages
        + ((processImageForNode ⟨3, 2, 5⟩ (fun _ => some [1]) initialStats
          ⟨"a", "IMAGE", some "u", some "u", none, none, none⟩).1).failedImages
        = ((processImageForNode ⟨3, 2, 5⟩ (fun _ => some [1]) initialStats
          ⟨"a", "IMAGE", some "u", some "u", none, none, none⟩).1).totalImages)) ∧
    ((⟨"b", "FRAME", none, none, none, none, none⟩ : SNode).imageSource = none ∧
      processImageForNode ⟨3, 2, 5⟩ (fun _ => some [1]) initialStats
          ⟨"b", "FRAME", none, none, none, none, none⟩
        = (initialStats, none)) := by
  refine ⟨⟨by decide, ?_⟩, by decide, ?_⟩
  · exact (stats_account_every_image ⟨3, 2, 5⟩ (fun _ => some [1])).1
      initialStats ⟨"a", "IMAGE", some "u", some "u", none, none, none⟩ (by decide)
  · exact (stats_account_every_image ⟨3, 2, 5⟩ (fun _ => some [1])).2.1
      initialStats ⟨"b", "FRAME", none, none, none, none, none⟩ rfl

/-! ### Controller pipeline lemmas -/

/-- The processing result for one node does not depend on the statistics
accumulator. -/
theorem processImageForNode_snd (cfg : Config)
    (fetch : String → Option (List Nat)) (st st' : ProcessingStats) (n : SNode) :
    (processImageForNode cfg fetch st n).2 = (processImageForNode cfg fetch st' n).2 := by
  unfold processImageForNode
  cases hs : n.imageSource with
  | none => rfl
  | some url =>
      cases hf : fetch url with
      | none => simp [hf]
      | some buf =>
          by_cases h : buf.length ≥ cfg.IMAGE_SIZE_THRESHOLD <;> simp [hf, h]

/-- The node list coming out of the processing pass is the pointwise
annotation of the input list. -/
theorem processNodes_snd (cfg : Config) (fetch : String → Option (List Nat)) :
    ∀ (nodes : List SNode) (st : ProcessingStats),
      (processNodes cfg fetch st nodes).2 = nodes.map (annotateNode cfg fetch) := by
  intro nodes
  induction nodes with
  | nil => intro st; rfl
  | cons n rest ih =>
      intro st
      unfold processNodes
      by_cases hq : qualifies n = true
      · simp only [hq, if_true, List.map_cons]
        rw [ih]
        congr 1
        unfold annotateNode
        rw [if_pos hq, processImageForNode_snd cfg fetch st initialStats n]
      · simp only [hq, Bool.false_eq_true, if_false, List.map_cons]
        rw [ih]
        congr 1
        unfold annotateNode
        exact (if_neg hq).symm

/-- `processAllImages` returns the annotated node list. -/
theorem processAllImages_nodes (cfg : Config) (fetch : String → Option (List Nat))
    (st : ProcessingStats) (seq : Nat) (nodes : List SNode) :
    (processAllImages cfg fetch st seq nodes).2.2.1
      = nodes.map (annotateNode cfg fetch) := by
  unfold processAllImages
  by_cases hm : (nodes.filter qualifies).length = 0
  · simp only [hm, if_true]
    have hnil : nodes.filter qualifies = [] := List.length_eq_zero.mp hm
    have hq : ∀ n ∈ nodes, ¬ (qualifies n = true) := by
      intro n hn hqn
      have hmem : n ∈ nodes.filter qualifies := List.mem_filter.mpr ⟨hn, hqn⟩
      rw [hnil] at hmem
      simp at hmem
    have : nodes.map (annotateNode cfg fetch) = nodes.map id := by
      apply List.map_congr_left
      intro n hn
      unfold annotateNode
      rw [if_neg (hq n hn)]
      rfl
    rw [this, List.map_id]
  · simp only [hm, if_false]
    exact processNodes_snd cfg fetch nodes st

/-- `processAllImages` statistics projection. -/
theorem processAllImages_stats (cfg : Config) (fetch : String → Option (List Nat))
    (st : ProcessingStats) (seq : Nat) (nodes : List SNode) :
    (processAllImages cfg fetch st seq nodes).1
      = if (nodes.filter qualifies).length = 0 then st
        else (processNodes cfg fetch st nodes).1 := by
  unfold processAllImages
  by_cases hm : (nodes.filter qualifies).length = 0 <;> simp [hm]

/-- Every envelope emitted during image processing is a
`PROGRESS {stage: "processing_images"}`. -/
theorem processAllImages_envs (cfg : Config) (fetch : String → Option (List Nat))
    (st : ProcessingStats) (seq : Nat) (nodes : List SNode) :
    ∀ e ∈ (processAllImages cfg fetch st seq nodes).2.2.2,
      ∃ c t s, e = Envelope.progress "processing_images" c t s := by
  unfold processAllImages
  by_cases hm : (nodes.filter qualifies).length = 0
  · simp [hm]
  · simp only [hm, if_false]
    intro e he
    rcases List.mem_map.mp he with ⟨p, _, hpe⟩
    exact ⟨p.2, (nodes.filter qualifies).length, seq + p.1, hpe.symm⟩

/-- Every envelope emitted by `streamNodes` is a NODES envelope. -/
theorem streamNodes_envs (seq : Nat) (nodes : List SNode) :
    ∀ e ∈ (streamNodes seq nodes).2, ∃ b s, e = Envelope.nodesMsg b s := by
  unfold streamNodes
  intro e he
  rcases List.mem_map.mp he with ⟨p, _, hpe⟩
  exact ⟨p.2, seq + p.1, hpe.symm⟩

/-- Attaching image sources never changes node ids. -/
theorem attachImageSources_map_id (nodes : List SNode) :
    (attachImageSources nodes).map (·.id) = nodes.map (·.id) := by
  unfold attachImageSources
  rw [List.map_map]
  apply List.map_congr_left
  intro n _
  by_cases h : n.ntype == "IMAGE"
  · simp only [Function.comp_apply, h, if_true]
    cases n.imageUrl <;> rfl
  · have h' : ¬ n.ntype = "IMAGE" := by simpa using h
    simp [Function.comp_apply, h']

/-- Annotation never changes node ids. -/
theorem annotateNode_id (cfg : Config) (fetch : String → Option (List Nat))
    (n : SNode) : (annotateNode cfg fetch n).id = n.id := by
  unfold annotateNode
  by_cases h : qualifies n = true
  · rw [if_pos h]
    unfold applyProcessResult
    cases hr : (processImageForNode cfg fetch initialStats n).2 with
    | none => rfl
    | some pr =>
        rcases pr with ⟨buf, b⟩
        cases b <;> rfl
  · rw [if_neg h]

/-- A member IMAGE node with a url appears source-attached in
`attachImageSources`. -/
theorem attach_mem (nodes : List SNode) (n : SNode) (url : String)
    (hn : n ∈ nodes) (himg : n.ntype = "IMAGE") (hurl : n.imageUrl = some url) :
    ({ n with imageSource := some url } : SNode) ∈ attachImageSources nodes := by
  unfold attachImageSources
  apply List.mem_map.mpr
  refine ⟨n, hn, ?_⟩
  have h1 : (n.ntype == "IMAGE") = true := by simp [himg]
  simp only [h1, if_true, hurl]

/-- A node whose fetch fails is left without any annotation. -/
theorem annotate_failed (cfg : Config) (fetch : String → Option (List Nat))
    (n : SNode) (url : String) (himg : n.ntype = "IMAGE")
    (hf : fetch url = none) :
    annotateNode cfg fetch { n with imageSource := some url }
      = { n with imageSource := some url } := by
  unfold annotateNode
  have hq : qualifies ({ n with imageSource := some url } : SNode) = true := by
    unfold qualifies
    simp [himg]
  rw [if_pos hq]
  unfold processImageForNode
  simp [hf, applyProcessResult]

/-- A node whose fetched payload reaches the threshold gets the chunk-reference
descriptor and the stashed buffer. -/
theorem annotate_chunked (cfg : Config) (fetch : String → Option (List Nat))
    (n : SNode) (url : String) (buf : List Nat) (himg : n.ntype = "IMAGE")
    (hf : fetch url = some buf) (hbig : cfg.IMAGE_SIZE_THRESHOLD ≤ buf.length) :
    annotateNode cfg fetch { n with imageSource := some url }
      = { n with
          imageSource := some url
          imageChunkRef :=
            some (ChunkRef.mk buf.length
              (jsCeilDiv buf.length cfg.IMAGE_CHUNK_SIZE) cfg.IMAGE_CHUNK_SIZE true)
          imageBuffer := some buf } := by
  unfold annotateNode
  have hq : qualifies ({ n with imageSource := some url } : SNode) = true := by
    unfold qualifies
    simp [himg]
  rw [if_pos hq]
  unfold processImageForNode
  have hge : buf.length ≥ cfg.IMAGE_SIZE_THRESHOLD := hbig
  simp [hf, hge, applyProcessResult]

/-- Every envelope of the chunk-streaming loop is an IMAGE_CHUNK addressed to
one of the looped nodes, or a `streaming_images` PROGRESS. -/
theorem streamChunksLoop_shapes (cfg : Config) (total : Nat) :
    ∀ (ns : List SNode) (seq j : Nat),
      ∀ e ∈ (streamChunksLoop cfg total seq j ns).2,
        (∃ nid k tc d s, e = Envelope.imageChunk nid k tc d s ∧
           nid ∈ ns.map (·.id)) ∨
        (∃ c t s, e = Envelope.progress "streaming_images" c t s) := by
  intro ns
  induction ns with
  | nil =>
      intro seq j e he
      simp [streamChunksLoop] at he
  | cons m rest ih =>
      intro seq j e he
      unfold streamChunksLoop at he
      cases hb : m.imageBuffer with
      | none =>
          simp only [hb] at he
          rcases ih seq (j + 1) e he with h | h
          · left
            obtain ⟨nid, k, tc, d, s, he2, hmem⟩ := h
            exact ⟨nid, k, tc, d, s, he2, by simp only [List.map_cons, List.mem_cons]; exact Or.inr hmem⟩
          · right; exact h
      | some buf =>
          simp only [hb] at he
          rcases List.mem_append.mp he with hbl | hrest
          · left
            rcases List.mem_map.mp hbl with ⟨k, _, hke⟩
            refine ⟨m.id, k, _, _, seq + k, hke.symm, ?_⟩
            simp
          · rcases List.mem_cons.mp hrest with hpr | hr2
            · right
              exact ⟨j + 1, total, _, hpr⟩
            · rcases ih _ (j + 1) e hr2 with h | h
              · left
                obtain ⟨nid, k, tc, d, s, he2, hmem⟩ := h
                exact ⟨nid, k, tc, d, s, he2,
                  by simp only [List.map_cons, List.mem_cons]; exact Or.inr hmem⟩
              · right; exact h

/-- The chunk-streaming loop emits, for a streamed node with a distinct id, a
contiguous block of its IMAGE_CHUNK envelopes in ascending index order
followed immediately by a `streaming_images` PROGRESS, and no IMAGE_CHUNK
addressed to that id anywhere else. -/
theorem streamChunksLoop_block (cfg : Config) (total : Nat) :
    ∀ (ns : List SNode) (seq j : Nat) (n : SNode) (buf : List Nat) (ref : ChunkRef),
      n ∈ ns → (ns.map (·.id)).Nodup →
      n.imageBuffer = some buf → n.imageChunkRef = some ref →
      ∃ pre post s c,
        (streamChunksLoop cfg total seq j ns).2
          = pre ++ ((List.range ref.totalChunks).map (fun k =>
              Envelope.imageChunk n.id k ref.totalChunks
                (chunkSliceAt cfg.IMAGE_CHUNK_SIZE buf k) (s + k)))
            ++ Envelope.progress "streaming_images" c total (s + ref.totalChunks) :: post
        ∧ (∀ e ∈ pre, isChunkOf n.id e = false)
        ∧ (∀ e ∈ post, isChunkOf n.id e = false) := by
  intro ns
  induction ns with
  | nil =>
      intro seq j n buf ref hmem
      simp at hmem
  | cons m rest ih =>
      intro seq j n buf ref hmem hnd hb hr
      rw [List.map_cons, List.nodup_cons] at hnd
      rcases List.mem_cons.mp hmem with heq | hmemr
      · subst heq
        unfold streamChunksLoop
        simp only [hb, hr, Option.map_some', Option.getD_some]
        refine ⟨[], (streamChunksLoop cfg total (seq + ref.totalChunks + 1) (j + 1) rest).2,
          seq, j + 1, by simp, ?_, ?_⟩
        · intro e he
          simp at he
        · intro e he
          rcases streamChunksLoop_shapes cfg total rest _ _ e he with h | h
          · obtain ⟨nid, k, tc, dd, s, he2, hmemid⟩ := h
            subst he2
            unfold isChunkOf
            have : nid ≠ n.id := by
              intro hh
              rw [hh] at hmemid
              exact hnd.1 hmemid
            simp [this]
          · obtain ⟨c, t, s, he2⟩ := h
            subst he2
            rfl
      · have hne : m.id ≠ n.id := by
          intro hh
          apply hnd.1
          rw [hh]
          exact List.mem_map.mpr ⟨n, hmemr, rfl⟩
        unfold streamChunksLoop
        cases hmb : m.imageBuffer with
        | none =>
            obtain ⟨pre, post, s, c, hEq, hpre, hpost⟩ :=
              ih seq (j + 1) n buf ref hmemr hnd.2 hb hr
            exact ⟨pre, post, s, c, by simp only [hmb]; exact hEq, hpre, hpost⟩
        | some bufm =>
            obtain ⟨pre, post, s, c, hEq, hpre, hpost⟩ :=
              ih (seq + (m.imageChunkRef.map ChunkRef.totalChunks).getD 0 + 1)
                (j + 1) n buf ref hmemr hnd.2 hb hr
            refine ⟨((List.range ((m.imageChunkRef.map ChunkRef.totalChunks).getD 0)).map
                (fun k => Envelope.imageChunk m.id k
                  ((m.imageChunkRef.map ChunkRef.totalChunks).getD 0)
                  (chunkSliceAt cfg.IMAGE_CHUNK_SIZE bufm k) (seq + k)))
              ++ Envelope.progress "streaming_images" (j + 1) total
                  (seq + (m.imageChunkRef.map ChunkRef.totalChunks).getD 0) :: pre,
              post, s, c, ?_, ?_, hpost⟩
            · simp only [hmb]
              rw [hEq]
              simp [List.append_assoc]
            · intro e he
              rcases List.mem_append.mp he with h1 | h2
              · rcases List.mem_map.mp h1 with ⟨k, _, hke⟩
                subst hke
                unfold isChunkOf
                simp [hne]
              · rcases List.mem_cons.mp h2 with h3 | h4
                · subst h3
                  rfl
                · exact hpre e h4

/-! ### Claim C3: envelope ordering around TOKENS -/

/-- C3 counterexample: in a session with tokens and one (small) image, the
first envelope sent is the Normalizer's `processing_images` PROGRESS — not
TOKENS — because `streamExtractedPage` runs `processAllImages` before sending
TOKENS. -/
theorem tokens_not_first_counterexample :
    (⟨[⟨"a", "IMAGE", some "u", none, none, none, none⟩], [],
        some ()⟩ : StreamPayload).tokens.isSome = true ∧
    (streamExtractedPage ⟨3, 2, 5⟩ (fun u => if u == "u" then some [1] else none)
        ⟨[⟨"a", "IMAGE", some "u", none, none, none, none⟩], [], some ()⟩).head?
      = some (Envelope.progress "processing_images" 1 1 0) := by
  exact ⟨rfl, by decide⟩

/-- C3 (amended): when tokens are present, TOKENS is emitted exactly once,
after the Normalizer's `processing_images` PROGRESS envelopes and before
everything else — FONTS, NODES, IMAGE_CHUNK, `streaming_images` PROGRESS and
COMPLETE all come after it; only `processing_images` PROGRESS precedes it. -/
theorem streamImageChunks_shapes (cfg : Config) (seq : Nat) (nodes : List SNode) :
    ∀ e ∈ (streamImageChunks cfg seq nodes).2,
      (∃ nid k tc d s, e = Envelope.imageChunk nid k tc d s ∧
         nid ∈ (nodes.filter
           (fun n => (n.imageChunkRef.map ChunkRef.isStreamed).getD false)).map (·.id)) ∨
      (∃ c t s, e = Envelope.progress "streaming_images" c t s) := by
  unfold streamImageChunks
  exact streamChunksLoop_shapes cfg _ _ _ _

theorem tokens_order_amended (cfg : Config) (fetch : String → Option (List Nat))
    (p : StreamPayload) (h : p.tokens.isSome = true) :
    ∃ pre s post, streamExtractedPage cfg fetch p = pre ++ Envelope.tokens s :: post
      ∧ (∀ e ∈ pre, isProcessingProgress e = true)
      ∧ (∀ e ∈ post, isProcessingProgress e = false ∧
          ∀ s', e ≠ Envelope.tokens s') := by
  exact ⟨(processAllImages cfg fetch initialStats 0 (attachImageSources p.nodes)).2.2.2,
    (processAllImages cfg fetch initialStats 0 (attachImageSources p.nodes)).2.1,
    _,
    by
      unfold streamExtractedPage
      simp only [h, if_true]
      simp only [List.append_assoc, List.cons_append, List.nil_append]
      rfl,
    by
      intro e he
      rcases processAllImages_envs cfg fetch initialStats 0
        (attachImageSources p.nodes) e he with ⟨c, t, s, he2⟩
      subst he2
      rfl,
    by
      intro e he
      rcases List.mem_append.mp he with hf | he1
      · by_cases hfl : p.fonts.length > 0
        · simp only [hfl, if_true] at hf
          rcases List.mem_singleton.mp hf with rfl
          exact ⟨rfl, fun s' => by simp⟩
        · simp only [hfl, if_false] at hf
          simp at hf
      · rcases List.mem_append.mp he1 with hn | he2
        · rcases streamNodes_envs _ _ e hn with ⟨b, s, he3⟩
          subst he3
          exact ⟨rfl, fun s' => by simp⟩
        · rcases List.mem_append.mp he2 with hc | hcomp
          · rcases streamImageChunks_shapes cfg _ _ e hc with hh | hh
            · obtain ⟨nid, k, tc, d, s, he4, _⟩ := hh
              subst he4
              exact ⟨rfl, fun s' => by simp⟩
            · obtain ⟨c, t, s, he4⟩ := hh
              subst he4
              exact ⟨rfl, fun s' => by simp⟩
          · rcases List.mem_singleton.mp hcomp with rfl
            exact ⟨rfl, fun s' => by simp⟩⟩

/-- Witness for C3 (amended) at the counterexample session. -/
theorem tokens_order_amended_witness :
    (⟨[⟨"a", "IMAGE", some "u", none, none, none, none⟩], [],
        some ()⟩ : StreamPayload).tokens.isSome = true ∧
    (∃ pre s post,
      streamExtractedPage ⟨3, 2, 5⟩ (fun u => if u == "u" then some [1] else none)
          ⟨[⟨"a", "IMAGE", some "u", none, none, none, none⟩], [], some ()⟩
        = pre ++ Envelope.tokens s :: post
      ∧ (∀ e ∈ pre, isProcessingProgress e = true)
      ∧ (∀ e ∈ post, isProcessingProgress e = false ∧
          ∀ s', e ≠ Envelope.tokens s')) :=
  ⟨rfl, tokens_order_amended ⟨3, 2, 5⟩ (fun u => if u == "u" then some [1] else none)
    ⟨[⟨"a", "IMAGE", some "u", none, none, none, none⟩], [], some ()⟩ rfl⟩

/-! ### Claim C6: per-item chunk emission -/

/-- Block decomposition of `streamImageChunks` for one streamed node. -/
theorem streamImageChunks_block (cfg : Config) (seq : Nat) (nodes : List SNode)
    (n : SNode) (buf : List Nat) (ref : ChunkRef)
    (hmem : n ∈ nodes)
    (hstr : (n.imageChunkRef.map ChunkRef.isStreamed).getD false = true)
    (hnd : (nodes.map (·.id)).Nodup)
    (hb : n.imageBuffer = some buf) (hr : n.imageChunkRef = some ref) :
    ∃ pre post s c t, (streamImageChunks cfg seq nodes).2
      = pre ++ ((List.range ref.totalChunks).map (fun k =>
          Envelope.imageChunk n.id k ref.totalChunks
            (chunkSliceAt cfg.IMAGE_CHUNK_SIZE buf k) (s + k)))
        ++ Envelope.progress "streaming_images" c t (s + ref.totalChunks) :: post
      ∧ (∀ e ∈ pre, isChunkOf n.id e = false)
      ∧ (∀ e ∈ post, isChunkOf n.id e = false) := by
  unfold streamImageChunks
  have hmemF : n ∈ nodes.filter
      (fun m => (m.imageChunkRef.map ChunkRef.isStreamed).getD false) :=
    List.mem_filter.mpr ⟨hmem, hstr⟩
  have hndF : ((nodes.filter
      (fun m => (m.imageChunkRef.map ChunkRef.isStreamed).getD false)).map (·.id)).Nodup :=
    List.Nodup.sublist (List.Sublist.map _ (List.filter_sublist nodes)) hnd
  obtain ⟨pre, post, s, c, h1, h2, h3⟩ :=
    streamChunksLoop_block cfg
      (nodes.filter (fun m => (m.imageChunkRef.map ChunkRef.isStreamed).getD false)).length
      (nodes.filter (fun m => (m.imageChunkRef.map ChunkRef.isStreamed).getD false))
      seq 0 n buf ref hmemF hndF hb hr
  exact ⟨pre, post, s, c, _, h1, h2, h3⟩

/-- The front of the envelope stream (everything before the chunk phase)
contains no IMAGE_CHUNK envelope. -/
theorem streamExtractedPage_split (cfg : Config)
    (fetch : String → Option (List Nat)) (p : StreamPayload) :
    ∃ front s0 last, streamExtractedPage cfg fetch p
      = front ++ (streamImageChunks cfg s0
          ((processAllImages cfg fetch initialStats 0
            (attachImageSources p.nodes)).2.2.1)).2 ++ [last]
      ∧ (∀ e ∈ front, ∀ nid, isChunkOf nid e = false)
      ∧ (∀ nid, isChunkOf nid last = false) := by
  refine ⟨_, _, _, by unfold streamExtractedPage; rfl, ?_, by intro nid; rfl⟩
  intro e he nid
  rcases List.mem_append.mp he with he1 | hn
  · rcases List.mem_append.mp he1 with he2 | hf
    · rcases List.mem_append.mp he2 with ha | ht
      · rcases processAllImages_envs cfg fetch initialStats 0
          (attachImageSources p.nodes) e ha with ⟨c, t, s, he3⟩
        subst he3
        rfl
      · by_cases htk : p.tokens.isSome
        · simp only [htk, if_true] at ht
          rcases List.mem_singleton.mp ht with rfl
          rfl
        · simp only [htk, if_false] at ht
          simp at ht
    · by_cases hfl : p.fonts.length > 0
      · simp only [hfl, if_true] at hf
        rcases List.mem_singleton.mp hf with rfl
        rfl
      · simp only [hfl, if_false] at hf
        simp at hf
  · rcases streamNodes_envs _ _ e hn with ⟨b, s, he3⟩
    subst he3
    rfl

/-- C6: for every chunked item the Controller emits exactly
`ceil(totalSize/chunkSize)` IMAGE_CHUNK envelopes, with `chunkIndex` ascending
`0..totalChunks-1`, as one contiguous block followed immediately by a
`streaming_images` PROGRESS, and no IMAGE_CHUNK for that id appears anywhere
else in the session; for a 300 KB payload with 64 KiB chunks the count is 5. -/
theorem chunked_item_emission (cfg : Config) (fetch : String → Option (List Nat))
    (p : StreamPayload) (n : SNode) (url : String) (buf : List Nat)
    (_hC : 0 < cfg.IMAGE_CHUNK_SIZE)
    (hmem : n ∈ p.nodes) (himg : n.ntype = "IMAGE") (hurl : n.imageUrl = some url)
    (hfetch : fetch url = some buf) (hbig : cfg.IMAGE_SIZE_THRESHOLD ≤ buf.length)
    (hnodup : (p.nodes.map (·.id)).Nodup) :
    (∃ pre post s c t,
      streamExtractedPage cfg fetch p
        = pre ++ ((List.range (jsCeilDiv buf.length cfg.IMAGE_CHUNK_SIZE)).map (fun k =>
            Envelope.imageChunk n.id k (jsCeilDiv buf.length cfg.IMAGE_CHUNK_SIZE)
              (chunkSliceAt cfg.IMAGE_CHUNK_SIZE buf k) (s + k)))
          ++ Envelope.progress "streaming_images" c t
              (s + jsCeilDiv buf.length cfg.IMAGE_CHUNK_SIZE) :: post
        ∧ (∀ e ∈ pre, isChunkOf n.id e = false)
        ∧ (∀ e ∈ post, isChunkOf n.id e = false))
    ∧ jsCeilDiv 307200 65536 = 5 := by
  refine ⟨?_, by decide⟩
  have hattach : ({ n with imageSource := some url } : SNode)
      ∈ attachImageSources p.nodes := attach_mem p.nodes n url hmem himg hurl
  have hann := annotate_chunked cfg fetch n url buf himg hfetch hbig
  have hmem1 : ({ n with
      imageSource := some url
      imageChunkRef := some (ChunkRef.mk buf.length
        (jsCeilDiv buf.length cfg.IMAGE_CHUNK_SIZE) cfg.IMAGE_CHUNK_SIZE true)
      imageBuffer := some buf } : SNode)
      ∈ (processAllImages cfg fetch initialStats 0 (attachImageSources p.nodes)).2.2.1 := by
    rw [processAllImages_nodes]
    exact List.mem_map.mpr ⟨{ n with imageSource := some url }, hattach, hann⟩
  have hids : ((processAllImages cfg fetch initialStats 0
      (attachImageSources p.nodes)).2.2.1).map (·.id) = p.nodes.map (·.id) := by
    rw [processAllImages_nodes, List.map_map]
    have : ((fun x => x.id) ∘ annotateNode cfg fetch) = (fun x : SNode => x.id) := by
      funext x
      exact annotateNode_id cfg fetch x
    rw [this, attachImageSources_map_id]
  have hnodup1 : (((processAllImages cfg fetch initialStats 0
      (attachImageSources p.nodes)).2.2.1).map (·.id)).Nodup := by
    rw [hids]
    exact hnodup
  obtain ⟨front, s0, last, hfull, hfront, hlast⟩ :=
    streamExtractedPage_split cfg fetch p
  obtain ⟨pre, post, s, c, t, hchs, hpre, hpost⟩ :=
    streamImageChunks_block cfg s0
      ((processAllImages cfg fetch initialStats 0 (attachImageSources p.nodes)).2.2.1)
      ({ n with
          imageSource := some url
          imageChunkRef := some (ChunkRef.mk buf.length
            (jsCeilDiv buf.length cfg.IMAGE_CHUNK_SIZE) cfg.IMAGE_CHUNK_SIZE true)
          imageBuffer := some buf })
      buf (ChunkRef.mk buf.length
        (jsCeilDiv buf.length cfg.IMAGE_CHUNK_SIZE) cfg.IMAGE_CHUNK_SIZE true)
      hmem1 rfl hnodup1 rfl rfl
  refine ⟨front ++ pre, post ++ [last], s, c, t, ?_, ?_, ?_⟩
  · rw [hfull, hchs]
    simp only [List.append_assoc, List.cons_append, List.nil_append]
  · intro e he
    rcases List.mem_append.mp he with h1 | h2
    · exact hfront e h1 _
    · exact hpre e h2
  · intro e he
    rcases List.mem_append.mp he with h1 | h2
    · exact hpost e h1
    · rcases List.mem_singleton.mp h2 with rfl
      exact hlast _

/-- Witness for C6: a 5-byte payload with chunk size 2 and threshold 3 yields
a block of 3 ascending IMAGE_CHUNK envelopes plus a streaming PROGRESS. -/
theorem chunked_item_emission_witness :
    ((0 : Nat) < 2 ∧
      (⟨"a", "IMAGE", some "u", none, none, none, none⟩ : SNode)
        ∈ [(⟨"a", "IMAGE", some "u", none, none, none, none⟩ : SNode)] ∧
      (⟨"a", "IMAGE", some "u", none, none, none, none⟩ : SNode).ntype = "IMAGE" ∧
      (3 : Nat) ≤ ([9, 8, 7, 6, 5] : List Nat).length) ∧
    ((∃ pre post s c t,
      streamExtractedPage ⟨3, 2, 5⟩ (fun u => if u == "u" then some [9, 8, 7, 6, 5] else none)
          ⟨[⟨"a", "IMAGE", some "u", none, none, none, none⟩], [], none⟩
        = pre ++ ((List.range (jsCeilDiv ([9, 8, 7, 6, 5] : List Nat).length 2)).map (fun k =>
            Envelope.imageChunk "a" k (jsCeilDiv ([9, 8, 7, 6, 5] : List Nat).length 2)
              (chunkSliceAt 2 [9, 8, 7, 6, 5] k) (s + k)))
          ++ Envelope.progress "streaming_images" c t
              (s + jsCeilDiv ([9, 8, 7, 6, 5] : List Nat).length 2) :: post
        ∧ (∀ e ∈ pre, isChunkOf "a" e = false)
        ∧ (∀ e ∈ post, isChunkOf "a" e = false))
    ∧ jsCeilDiv 307200 65536 = 5) :=
  ⟨⟨by decide, by decide, rfl, by decide⟩,
    chunked_item_emission ⟨3, 2, 5⟩
      (fun u => if u == "u" then some [9, 8, 7, 6, 5] else none)
      ⟨[⟨"a", "IMAGE", some "u", none, none, none, none⟩], [], none⟩
      ⟨"a", "IMAGE", some "u", none, none, none, none⟩ "u" [9, 8, 7, 6, 5]
      (by decide) (by decide) rfl rfl (by decide) (by decide) (by decide)⟩

/-! ### Consumer lemmas: placeholder sweep, finalization loop, batch fold -/

/-- A sweep neither revives nor touches an id that is not pending. -/
theorem sweep_preserves_nonpending :
    ∀ (ids : List String) (st : ConsumerState) (id : String),
      mapGet? st.pendingImageNodes id = none →
      mapGet? (placeholderSweep st ids).pendingImageNodes id = none ∧
      mapGet? (placeholderSweep st ids).streamCreatedNodes id
        = mapGet? st.streamCreatedNodes id := by
  intro ids
  induction ids with
  | nil => intro st id h; exact ⟨h, rfl⟩
  | cons k ks ih =>
      intro st id h
      unfold placeholderSweep
      rw [List.foldl_cons]
      cases hk : mapGet? st.pendingImageNodes k with
      | none =>
          simp only [hk]
          exact ih st id h
      | some node =>
          simp only [hk]
          have hkid : k ≠ id := by
            intro hh
            rw [hh, h] at hk
            cases hk
          have h1 : mapGet? (mapDelete st.pendingImageNodes k) id = none := by
            rw [mapGet?_delete_ne _ _ _ (Ne.symm hkid)]
            exact h
          have hrec := ih ⟨mapDelete st.pendingImageNodes k,
            mapSet st.streamCreatedNodes k CreatedKind.placeholder,
            st.assembler, st.totalStreamNodesProcessed + 1⟩ id h1
          exact ⟨hrec.1, hrec.2.trans (mapGet?_set_ne _ _ _ _ (Ne.symm hkid))⟩

/-- A sweep whose id list contains a pending id replaces it with a recorded
placeholder and clears it from the Pending Item Table. -/
theorem sweep_sets_placeholder :
    ∀ (ids : List String) (st : ConsumerState) (id : String),
      id ∈ ids → (mapGet? st.pendingImageNodes id).isSome = true →
      mapGet? (placeholderSweep st ids).streamCreatedNodes id
        = some CreatedKind.placeholder ∧
      mapGet? (placeholderSweep st ids).pendingImageNodes id = none := by
  intro ids
  induction ids with
  | nil => intro st id h; simp at h
  | cons k ks ih =>
      intro st id hmem hsome
      unfold placeholderSweep
      rw [List.foldl_cons]
      by_cases hkid : k = id
      · subst hkid
        cases hk : mapGet? st.pendingImageNodes k with
        | none => rw [hk] at hsome; cases hsome
        | some node =>
            simp only [hk]
            have hpend : mapGet? (mapDelete st.pendingImageNodes k) k = none :=
              mapGet?_delete_self _ _
            have hpres := sweep_preserves_nonpending ks
              ⟨mapDelete st.pendingImageNodes k,
                mapSet st.streamCreatedNodes k CreatedKind.placeholder,
                st.assembler, st.totalStreamNodesProcessed + 1⟩ k hpend
            exact ⟨hpres.2.trans (mapGet?_set_self _ _ _), hpres.1⟩
      · have hmem' : id ∈ ks := by
          rcases List.mem_cons.mp hmem with hh | hh
          · exact absurd hh.symm hkid
          · exact hh
        cases hk : mapGet? st.pendingImageNodes k with
        | none =>
            simp only [hk]
            exact ih st id hmem' hsome
        | some node =>
            simp only [hk]
            apply ih ⟨mapDelete st.pendingImageNodes k,
              mapSet st.streamCreatedNodes k CreatedKind.placeholder,
              st.assembler, st.totalStreamNodesProcessed + 1⟩ id hmem'
            show (mapGet? (mapDelete st.pendingImageNodes k) id).isSome = true
            rw [mapGet?_delete_ne _ _ _ (fun hh => hkid hh.symm)]
            exact hsome

/-- A recorded placeholder survives any further sweep. -/
theorem sweep_placeholder_persists :
    ∀ (ids : List String) (st : ConsumerState) (id : String),
      mapGet? st.streamCreatedNodes id = some CreatedKind.placeholder →
      mapGet? (placeholderSweep st ids).streamCreatedNodes id
        = some CreatedKind.placeholder := by
  intro ids
  induction ids with
  | nil => intro st id h; exact h
  | cons k ks ih =>
      intro st id h
      unfold placeholderSweep
      rw [List.foldl_cons]
      cases hk : mapGet? st.pendingImageNodes k with
      | none =>
          simp only [hk]
          exact ih st id h
      | some node =>
          simp only [hk]
          apply ih ⟨mapDelete st.pendingImageNodes k,
            mapSet st.streamCreatedNodes k CreatedKind.placeholder,
            st.assembler, st.totalStreamNodesProcessed + 1⟩ id
          show mapGet? (mapSet st.streamCreatedNodes k CreatedKind.placeholder) id
            = some CreatedKind.placeholder
          by_cases hkid : k = id
          · subst hkid
            exact mapGet?_set_self _ _ _
          · rw [mapGet?_set_ne _ _ _ _ (fun hh => hkid hh.symm)]
            exact h

/-- A sweep over ids not containing `id` leaves `id`'s entries alone. -/
theorem sweep_notmem_preserves :
    ∀ (ids : List String) (st : ConsumerState) (id : String),
      id ∉ ids →
      mapGet? (placeholderSweep st ids).pendingImageNodes id
        = mapGet? st.pendingImageNodes id ∧
      mapGet? (placeholderSweep st ids).streamCreatedNodes id
        = mapGet? st.streamCreatedNodes id := by
  intro ids
  induction ids with
  | nil => intro st id _; exact ⟨rfl, rfl⟩
  | cons k ks ih =>
      intro st id hnmem
      have hkid : k ≠ id := fun hh => hnmem (hh ▸ List.mem_cons_self k ks)
      have hnmem' : id ∉ ks := fun hh => hnmem (List.mem_cons_of_mem k hh)
      unfold placeholderSweep
      rw [List.foldl_cons]
      cases hk : mapGet? st.pendingImageNodes k with
      | none =>
          simp only [hk]
          exact ih st id hnmem'
      | some node =>
          simp only [hk]
          have hrec := ih ⟨mapDelete st.pendingImageNodes k,
            mapSet st.streamCreatedNodes k CreatedKind.placeholder,
            st.assembler, st.totalStreamNodesProcessed + 1⟩ id hnmem'
          exact ⟨hrec.1.trans (mapGet?_delete_ne _ _ _ (Ne.symm hkid)),
            hrec.2.trans (mapGet?_set_ne _ _ _ _ (Ne.symm hkid))⟩

/-- An association map with no retrievable key is empty. -/
theorem mapGet?_all_none_nil {κ α : Type} [BEq κ] [LawfulBEq κ]
    (m : List (κ × α)) (h : ∀ k, mapGet? m k = none) : m = [] := by
  cases m with
  | nil => rfl
  | cons p rest =>
      have := h p.1
      rw [mapGet?_cons] at this
      simp at this

/-- Force-sweeping the Pending Item Table over its own key list empties it. -/
theorem sweep_keys_clears (st : ConsumerState) :
    (placeholderSweep st (st.pendingImageNodes.map (·.1))).pendingImageNodes = [] := by
  apply mapGet?_all_none_nil
  intro id
  by_cases h : (mapGet? st.pendingImageNodes id).isSome = true
  · have hmem : id ∈ st.pendingImageNodes.map (·.1) := (mapGet?_isSome_iff _ _).mp h
    exact (sweep_sets_placeholder _ st id hmem h).2
  · have hnone : mapGet? st.pendingImageNodes id = none := by
      cases hg : mapGet? st.pendingImageNodes id with
      | none => rfl
      | some b => rw [hg] at h; simp at h
    exact (sweep_preserves_nonpending _ st id hnone).1

/-- One finalization-poll iteration: a pending id either stays pending or has
been placeholdered. -/
theorem iter_cases (st : ConsumerState) (now : Nat) (id : String)
    (h : (mapGet? st.pendingImageNodes id).isSome = true) :
    (mapGet? (completeLoopIter st now).pendingImageNodes id).isSome = true ∨
    mapGet? (completeLoopIter st now).streamCreatedNodes id
      = some CreatedKind.placeholder := by
  by_cases hmem : id ∈ (ImageAssembler.cleanupTimedOut st.assembler now).1
  · right
    show mapGet? (placeholderSweep
        { st with assembler := (ImageAssembler.cleanupTimedOut st.assembler now).2 }
        (ImageAssembler.cleanupTimedOut st.assembler now).1).streamCreatedNodes id
      = some CreatedKind.placeholder
    exact (sweep_sets_placeholder (ImageAssembler.cleanupTimedOut st.assembler now).1
      { st with assembler := (ImageAssembler.cleanupTimedOut st.assembler now).2 }
      id hmem h).1
  · left
    show (mapGet? (placeholderSweep
        { st with assembler := (ImageAssembler.cleanupTimedOut st.assembler now).2 }
        (ImageAssembler.cleanupTimedOut st.assembler now).1).pendingImageNodes id).isSome
      = true
    rw [(sweep_notmem_preserves (ImageAssembler.cleanupTimedOut st.assembler now).1
      { st with assembler := (ImageAssembler.cleanupTimedOut st.assembler now).2 }
      id hmem).1]
    exact h

/-- The non-pending version of `iter_cases`. -/
theorem iter_preserves_nonpending (st : ConsumerState) (now : Nat) (id : String)
    (h : mapGet? st.pendingImageNodes id = none) :
    mapGet? (completeLoopIter st now).pendingImageNodes id = none ∧
    mapGet? (completeLoopIter st now).streamCreatedNodes id
      = mapGet? st.streamCreatedNodes id := by
  have := sweep_preserves_nonpending (ImageAssembler.cleanupTimedOut st.assembler now).1
    { st with assembler := (ImageAssembler.cleanupTimedOut st.assembler now).2 } id h
  exact this

/-- A placeholder recorded before an iteration survives it. -/
theorem iter_placeholder_persists (st : ConsumerState) (now : Nat) (id : String)
    (h : mapGet? st.streamCreatedNodes id = some CreatedKind.placeholder) :
    mapGet? (completeLoopIter st now).streamCreatedNodes id
      = some CreatedKind.placeholder :=
  sweep_placeholder_persists (ImageAssembler.cleanupTimedOut st.assembler now).1
    { st with assembler := (ImageAssembler.cleanupTimedOut st.assembler now).2 } id h

/-- A recorded placeholder survives the whole finalization poll. -/
theorem loop_placeholder_persists :
    ∀ (ticks : List Nat) (st : ConsumerState) (id : String),
      mapGet? st.streamCreatedNodes id = some CreatedKind.placeholder →
      mapGet? (completeLoop st ticks).streamCreatedNodes id
        = some CreatedKind.placeholder := by
  intro ticks
  induction ticks with
  | nil => intro st id h; exact h
  | cons now rest ih =>
      intro st id h
      unfold completeLoop
      by_cases hemp : st.pendingImageNodes.isEmpty
      · simp only [hemp, if_true]
        exact h
      · simp only [hemp, Bool.false_eq_true, if_false]
        exact ih _ id (iter_placeholder_persists st now id h)

/-- The finalization poll: a pending id either survives the poll or ends as a
recorded placeholder. -/
theorem loop_cases :
    ∀ (ticks : List Nat) (st : ConsumerState) (id : String),
      (mapGet? st.pendingImageNodes id).isSome = true →
      (mapGet? (completeLoop st ticks).pendingImageNodes id).isSome = true ∨
      mapGet? (completeLoop st ticks).streamCreatedNodes id
        = some CreatedKind.placeholder := by
  intro ticks
  induction ticks with
  | nil => intro st id h; exact Or.inl h
  | cons now rest ih =>
      intro st id h
      unfold completeLoop
      by_cases hemp : st.pendingImageNodes.isEmpty
      · simp only [hemp, if_true]
        exact Or.inl h
      · simp only [hemp, Bool.false_eq_true, if_false]
        rcases iter_cases st now id h with h1 | h1
        · exact ih _ id h1
        · exact Or.inr (loop_placeholder_persists rest _ id h1)

/-- The finalization poll does not touch ids that are not pending. -/
theorem loop_preserves_nonpending :
    ∀ (ticks : List Nat) (st : ConsumerState) (id : String),
      mapGet? st.pendingImageNodes id = none →
      mapGet? (completeLoop st ticks).pendingImageNodes id = none ∧
      mapGet? (completeLoop st ticks).streamCreatedNodes id
        = mapGet? st.streamCreatedNodes id := by
  intro ticks
  induction ticks with
  | nil => intro st id h; exact ⟨h, rfl⟩
  | cons now rest ih =>
      intro st id h
      unfold completeLoop
      by_cases hemp : st.pendingImageNodes.isEmpty
      · simp only [hemp, if_true]
        exact ⟨h, trivial⟩
      · simp only [hemp, Bool.false_eq_true, if_false]
        have hiter := iter_preserves_nonpending st now id h
        have hrec := ih (completeLoopIter st now) id hiter.1
        exact ⟨hrec.1, by rw [hrec.2]; exact hiter.2⟩

/-- Batch handling never removes Pending Item Table or created-map entries. -/
theorem batch_mono (render : SNode → Bool) :
    ∀ (nodes : List SNode) (st : ConsumerState) (id : String),
      ((mapGet? st.pendingImageNodes id).isSome = true →
        (mapGet? (handleStreamNodeBatch render st nodes).pendingImageNodes id).isSome
          = true) ∧
      ((mapGet? st.streamCreatedNodes id).isSome = true →
        (mapGet? (handleStreamNodeBatch render st nodes).streamCreatedNodes id).isSome
          = true) := by
  intro nodes
  induction nodes with
  | nil => intro st id; exact ⟨fun x => x, fun x => x⟩
  | cons n rest ih =>
      intro st id
      have hstep : handleStreamNodeBatch render st (n :: rest)
          = handleStreamNodeBatch render
              (if (n.imageChunkRef.map ChunkRef.isStreamed).getD false then
                { st with pendingImageNodes := mapSet st.pendingImageNodes n.id n }
              else if render n then
                { st with
                  streamCreatedNodes :=
                    mapSet st.streamCreatedNodes n.id CreatedKind.rendered,
                  totalStreamNodesProcessed := st.totalStreamNodesProcessed + 1 }
              else st) rest := by
        unfold handleStreamNodeBatch
        rw [List.foldl_cons]
      rw [hstep]
      by_cases hstr : (n.imageChunkRef.map ChunkRef.isStreamed).getD false
      · rw [if_pos hstr]
        constructor
        · intro h
          apply (ih _ id).1
          show (mapGet? (mapSet st.pendingImageNodes n.id n) id).isSome = true
          by_cases hid : n.id = id
          · subst hid
            rw [mapGet?_set_self]
            rfl
          · rw [mapGet?_set_ne _ _ _ _ (fun hh => hid hh.symm)]
            exact h
        · intro h
          exact (ih _ id).2 h
      · rw [if_neg hstr]
        by_cases hrend : render n
        · rw [if_pos hrend]
          constructor
          · intro h
            exact (ih _ id).1 h
          · intro h
            apply (ih _ id).2
            show (mapGet? (mapSet st.streamCreatedNodes n.id CreatedKind.rendered)
              id).isSome = true
            by_cases hid : n.id = id
            · subst hid
              rw [mapGet?_set_self]
              rfl
            · rw [mapGet?_set_ne _ _ _ _ (fun hh => hid hh.symm)]
              exact h
        · rw [if_neg hrend]
          exact ih st id

/-- Every id of a NODES batch ends the batch handler pending, materialized,
or skipped because the renderer returned null on a node with that id. -/
theorem batch_classifies (render : SNode → Bool) :
    ∀ (nodes : List SNode) (st : ConsumerState) (n : SNode), n ∈ nodes →
      (mapGet? (handleStreamNodeBatch render st nodes).pendingImageNodes n.id).isSome
          = true ∨
      (mapGet? (handleStreamNodeBatch render st nodes).streamCreatedNodes n.id).isSome
          = true ∨
      (∃ n', n' ∈ nodes ∧ n'.id = n.id ∧ render n' = false) := by
  intro nodes
  induction nodes with
  | nil => intro st n h; simp at h
  | cons m rest ih =>
      intro st n hmem
      have hstep : handleStreamNodeBatch render st (m :: rest)
          = handleStreamNodeBatch render
              (if (m.imageChunkRef.map ChunkRef.isStreamed).getD false then
                { st with pendingImageNodes := mapSet st.pendingImageNodes m.id m }
              else if render m then
                { st with
                  streamCreatedNodes :=
                    mapSet st.streamCreatedNodes m.id CreatedKind.rendered,
                  totalStreamNodesProcessed := st.totalStreamNodesProcessed + 1 }
              else st) rest := by
        unfold handleStreamNodeBatch
        rw [List.foldl_cons]
      rw [hstep]
      rcases List.mem_cons.mp hmem with heq | hmemr
      · subst heq
        by_cases hstr : (n.imageChunkRef.map ChunkRef.isStreamed).getD false
        · rw [if_pos hstr]
          left
          apply (batch_mono render rest _ n.id).1
          show (mapGet? (mapSet st.pendingImageNodes n.id n) n.id).isSome = true
          rw [mapGet?_set_self]
          rfl
        · rw [if_neg hstr]
          by_cases hrend : render n
          · rw [if_pos hrend]
            right
            left
            apply (batch_mono render rest _ n.id).2
            show (mapGet? (mapSet st.streamCreatedNodes n.id CreatedKind.rendered)
              n.id).isSome = true
            rw [mapGet?_set_self]
            rfl
          · right
            right
            exact ⟨n, List.mem_cons_self n rest, rfl, Bool.eq_false_iff.mpr hrend⟩
      · rcases ih _ n hmemr with h | h | h
        · exact Or.inl h
        · exact Or.inr (Or.inl h)
        · obtain ⟨n', hn', hid, hr⟩ := h
          exact Or.inr (Or.inr ⟨n', List.mem_cons_of_mem m hn', hid, hr⟩)

/-! ### Claim C1: every item ends in a terminal state -/

/-- C1: (i) every item delivered in a NODES batch ends the batch handler
pending, materialized, or explicitly skipped by a caught renderer failure;
(ii) after the Consumer finishes handling COMPLETE the Pending Item Table is
empty; (iii) every id still pending when COMPLETE arrived has been
(force-)placeholdered in `streamCreatedNodes`. -/
theorem every_item_terminal (render : SNode → Bool) :
    (∀ (st : ConsumerState) (nodes : List SNode) (n : SNode), n ∈ nodes →
       (mapGet? (handleStreamNodeBatch render st nodes).pendingImageNodes n.id).isSome
           = true ∨
       (mapGet? (handleStreamNodeBatch render st nodes).streamCreatedNodes n.id).isSome
           = true ∨
       (∃ n', n' ∈ nodes ∧ n'.id = n.id ∧ render n' = false)) ∧
    (∀ (st : ConsumerState) (ticks : List Nat),
       (handleStreamComplete st ticks).pendingImageNodes = []) ∧
    (∀ (st : ConsumerState) (ticks : List Nat) (id : String),
       (mapGet? st.pendingImageNodes id).isSome = true →
       mapGet? (handleStreamComplete st ticks).streamCreatedNodes id
         = some CreatedKind.placeholder) := by
  refine ⟨fun st nodes n h => batch_classifies render nodes st n h, ?_, ?_⟩
  · intro st ticks
    unfold handleStreamComplete
    exact sweep_keys_clears (completeLoop st ticks)
  · intro st ticks id h
    unfold handleStreamComplete
    rcases loop_cases ticks st id h with h1 | h1
    · have hmem : id ∈ (completeLoop st ticks).pendingImageNodes.map (·.1) :=
        (mapGet?_isSome_iff _ _).mp h1
      exact (sweep_sets_placeholder _ _ id hmem h1).1
    · exact sweep_placeholder_persists _ _ id h1

/-- Witness for C1: a streamed node deferred by a batch is force-placeholdered
by COMPLETE handling, leaving nothing pending. -/
theorem every_item_terminal_witness :
    ((⟨"x", "IMAGE", none, none, none, some ⟨10, 5, 2, true⟩, none⟩ : SNode)
        ∈ [(⟨"x", "IMAGE", none, none, none, some ⟨10, 5, 2, true⟩, none⟩ : SNode)] ∧
      ((mapGet? (handleStreamNodeBatch (fun _ => true) resetConsumerState
          [⟨"x", "IMAGE", none, none, none, some ⟨10, 5, 2, true⟩, none⟩]).pendingImageNodes
          "x").isSome = true ∨
        (mapGet? (handleStreamNodeBatch (fun _ => true) resetConsumerState
          [⟨"x", "IMAGE", none, none, none, some ⟨10, 5, 2, true⟩, none⟩]).streamCreatedNodes
          "x").isSome = true ∨
        (∃ n', n' ∈ [(⟨"x", "IMAGE", none, none, none, some ⟨10, 5, 2, true⟩, none⟩ : SNode)]
          ∧ n'.id = "x" ∧ (fun _ : SNode => true) n' = false))) ∧
    (handleStreamComplete
        ⟨[("x", ⟨"x", "IMAGE", none, none, none, some ⟨10, 5, 2, true⟩, none⟩)],
          [], emptyAssembler, 0⟩ [0]).pendingImageNodes = [] ∧
    ((mapGet? (⟨[("x", ⟨"x", "IMAGE", none, none, none, some ⟨10, 5, 2, true⟩, none⟩)],
          [], emptyAssembler, 0⟩ : ConsumerState).pendingImageNodes "x").isSome = true ∧
      mapGet? (handleStreamComplete
          ⟨[("x", ⟨"x", "IMAGE", none, none, none, some ⟨10, 5, 2, true⟩, none⟩)],
            [], emptyAssembler, 0⟩ [0]).streamCreatedNodes "x"
        = some CreatedKind.placeholder) := by
  refine ⟨⟨by decide, ?_⟩, ?_, by decide, ?_⟩
  · exact (every_item_terminal (fun _ => true)).1 resetConsumerState
      [⟨"x", "IMAGE", none, none, none, some ⟨10, 5, 2, true⟩, none⟩]
      ⟨"x", "IMAGE", none, none, none, some ⟨10, 5, 2, true⟩, none⟩ (by decide)
  · exact (every_item_terminal (fun _ => true)).2.1
      ⟨[("x", ⟨"x", "IMAGE", none, none, none, some ⟨10, 5, 2, true⟩, none⟩)],
        [], emptyAssembler, 0⟩ [0]
  · exact (every_item_terminal (fun _ => true)).2.2
      ⟨[("x", ⟨"x", "IMAGE", none, none, none, some ⟨10, 5, 2, true⟩, none⟩)],
        [], emptyAssembler, 0⟩ [0] "x" (by decide)

/-! ### Claim C5: failed fetch of a chunked-size image -/

/-- Every node of the array appears in one of `streamNodes`'s batches. -/
theorem streamNodes_covers (seq : Nat) (nodes : List SNode) (x : SNode)
    (hx : x ∈ nodes) :
    ∃ b s, Envelope.nodesMsg b s ∈ (streamNodes seq nodes).2 ∧ x ∈ b := by
  have hfun : (fun k => ((nodes.drop (k * 50)).take 50)) = chunkSliceAt 50 nodes := rfl
  have hflat : ((List.range (jsCeilDiv nodes.length 50)).map
      (fun k => ((nodes.drop (k * 50)).take 50))).flatten = nodes := by
    rw [hfun]
    exact chunkSlices_flatten 50 (by decide) nodes
  have hx2 : x ∈ ((List.range (jsCeilDiv nodes.length 50)).map
      (fun k => ((nodes.drop (k * 50)).take 50))).flatten := by
    rw [hflat]
    exact hx
  obtain ⟨b, hbmem, hxb⟩ := List.mem_flatten.mp hx2
  obtain ⟨k, hk, hbk⟩ := List.mem_iff_getElem.mp hbmem
  refine ⟨b, seq + k, ?_, hxb⟩
  show Envelope.nodesMsg b (seq + k) ∈ ((List.range (jsCeilDiv nodes.length 50)).map
    (fun k => ((nodes.drop (k * 50)).take 50))).enum.map
      (fun p => Envelope.nodesMsg p.2 (seq + p.1))
  apply List.mem_map.mpr
  refine ⟨(k, b), ?_, rfl⟩
  have hklen : k < ((List.range (jsCeilDiv nodes.length 50)).map
      (fun k => ((nodes.drop (k * 50)).take 50))).enum.length := by
    rw [List.enum_length]
    exact hk
  have hge : ((List.range (jsCeilDiv nodes.length 50)).map
      (fun k => ((nodes.drop (k * 50)).take 50))).enum[k] = (k, b) := by
    rw [List.getElem_enum]
    exact congrArg (Prod.mk k) hbk
  rw [← hge]
  exact List.getElem_mem hklen

/-- The NODES section of the stream embeds into the full session stream. -/
theorem streamExtractedPage_has_nodes_section (cfg : Config)
    (fetch : String → Option (List Nat)) (p : StreamPayload) :
    ∃ s0, ∀ e, e ∈ (streamNodes s0 ((processAllImages cfg fetch initialStats 0
        (attachImageSources p.nodes)).2.2.1)).2 →
      e ∈ streamExtractedPage cfg fetch p :=
  ⟨_, fun e he => by
    unfold streamExtractedPage
    exact List.mem_append.mpr (Or.inl (List.mem_append.mpr (Or.inl
      (List.mem_append.mpr (Or.inr he)))))⟩

/-- A single processing call never decreases the failure counter. -/
theorem processImageForNode_failed_le (cfg : Config)
    (fetch : String → Option (List Nat)) (st : ProcessingStats) (n : SNode) :
    st.failedImages ≤ ((processImageForNode cfg fetch st n).1).failedImages := by
  unfold processImageForNode
  cases hs : n.imageSource with
  | none => simp
  | some url =>
      cases hf : fetch url with
      | none => simp [hf]
      | some buf =>
          by_cases h : buf.length ≥ cfg.IMAGE_SIZE_THRESHOLD <;> simp [hf, h]

/-- The processing pass never decreases the failure counter. -/
theorem processNodes_failed_le (cfg : Config)
    (fetch : String → Option (List Nat)) :
    ∀ (nodes : List SNode) (st : ProcessingStats),
      st.failedImages ≤ ((processNodes cfg fetch st nodes).1).failedImages := by
  intro nodes
  induction nodes with
  | nil => intro st; exact le_rfl
  | cons n rest ih =>
      intro st
      unfold processNodes
      by_cases hq : qualifies n
      · simp only [hq, if_true]
        exact le_trans (processImageForNode_failed_le cfg fetch st n) (ih _)
      · simp only [hq, Bool.false_eq_true, if_false]
        exact ih st

/-- A qualifying node whose fetch fails bumps the failure counter. -/
theorem processNodes_failed_of_mem (cfg : Config)
    (fetch : String → Option (List Nat)) :
    ∀ (nodes : List SNode) (st : ProcessingStats) (x : SNode) (url : String),
      x ∈ nodes → qualifies x = true → x.imageSource = some url →
      fetch url = none →
      st.failedImages + 1 ≤ ((processNodes cfg fetch st nodes).1).failedImages := by
  intro nodes
  induction nodes with
  | nil => intro st x url h; simp at h
  | cons m rest ih =>
      intro st x url hmem hq hsrc hfail
      unfold processNodes
      rcases List.mem_cons.mp hmem with heq | hmemr
      · subst heq
        simp only [hq, if_true]
        have hstep : ((processImageForNode cfg fetch st x).1).failedImages
            = st.failedImages + 1 := by
          unfold processImageForNode
          simp [hsrc, hfail]
        have := processNodes_failed_le cfg fetch rest (processImageForNode cfg fetch st x).1
        omega
      · by_cases hq2 : qualifies m
        · simp only [hq2, if_true]
          have h1 := ih (processImageForNode cfg fetch st m).1 x url hmemr hq hsrc hfail
          have h2 := processImageForNode_failed_le cfg fetch st m
          omega
        · simp only [hq2, Bool.false_eq_true, if_false]
          exact ih st x url hmemr hq hsrc hfail

/-- No node of a batch is streamed for `id`, so `id` stays out of the Pending
Item Table. -/
theorem batch_no_pending (render : SNode → Bool) :
    ∀ (nodes : List SNode) (st : ConsumerState) (id : String),
      mapGet? st.pendingImageNodes id = none →
      (∀ m ∈ nodes, m.id = id →
        (m.imageChunkRef.map ChunkRef.isStreamed).getD false = false) →
      mapGet? (handleStreamNodeBatch render st nodes).pendingImageNodes id = none := by
  intro nodes
  induction nodes with
  | nil => intro st id h _; exact h
  | cons m rest ih =>
      intro st id h hall
      have hstep : handleStreamNodeBatch render st (m :: rest)
          = handleStreamNodeBatch render
              (if (m.imageChunkRef.map ChunkRef.isStreamed).getD false then
                { st with pendingImageNodes := mapSet st.pendingImageNodes m.id m }
              else if render m then
                { st with
                  streamCreatedNodes :=
                    mapSet st.streamCreatedNodes m.id CreatedKind.rendered,
                  totalStreamNodesProcessed := st.totalStreamNodesProcessed + 1 }
              else st) rest := by
        unfold handleStreamNodeBatch
        rw [List.foldl_cons]
      rw [hstep]
      by_cases hstr : (m.imageChunkRef.map ChunkRef.isStreamed).getD false
      · rw [if_pos hstr]
        apply ih _ id ?_ (fun m' hm' => hall m' (List.mem_cons_of_mem m hm'))
        show mapGet? (mapSet st.pendingImageNodes m.id m) id = none
        have hmne : m.id ≠ id := by
          intro hh
          have hfalse := hall m (List.mem_cons_self m rest) hh
          rw [hfalse] at hstr
          cases hstr
        rw [mapGet?_set_ne _ _ _ _ (Ne.symm hmne)]
        exact h
      · rw [if_neg hstr]
        by_cases hrend : render m
        · rw [if_pos hrend]
          exact ih _ id h (fun m' hm' => hall m' (List.mem_cons_of_mem m hm'))
        · rw [if_neg hrend]
          exact ih st id h (fun m' hm' => hall m' (List.mem_cons_of_mem m hm'))

/-- COMPLETE handling never creates (or changes) a created-map entry for an id
that is not pending — in particular, finalization produces no placeholder for
such an id. -/
theorem complete_preserves_unpending (st : ConsumerState) (ticks : List Nat)
    (id : String) (h : mapGet? st.pendingImageNodes id = none) :
    mapGet? (handleStreamComplete st ticks).streamCreatedNodes id
      = mapGet? st.streamCreatedNodes id := by
  unfold handleStreamComplete
  have hl := loop_preserves_nonpending ticks st id h
  have hs := sweep_preserves_nonpending
    ((completeLoop st ticks).pendingImageNodes.map (·.1)) (completeLoop st ticks)
    id hl.1
  exact hs.2.trans hl.2

/-- C5 counterexample: when the only (chunked-size) image's fetch fails, the
item ships in the NODES batch and no IMAGE_CHUNK or placeholder ever exists
for it: it never enters the Pending Item Table — the Consumer materializes it
immediately at NODES time — so COMPLETE-time finalization does not produce a
placeholder for its id, contradicting the claim. -/
theorem failed_fetch_counterexample :
    streamExtractedPage ⟨3, 2, 5⟩ (fun _ => none)
        ⟨[⟨"n1", "IMAGE", some "big", none, none, none, none⟩], [], none⟩
      = [Envelope.progress "processing_images" 1 1 0,
         Envelope.nodesMsg [⟨"n1", "IMAGE", some "big", some "big", none, none, none⟩] 1,
         Envelope.complete 1 1 0 0 2] ∧
    (sessionStats ⟨3, 2, 5⟩ (fun _ => none)
        ⟨[⟨"n1", "IMAGE", some "big", none, none, none, none⟩], [], none⟩).failedImages
      = 1 ∧
    (handleStreamNodeBatch (fun _ => true) resetConsumerState
        [⟨"n1", "IMAGE", some "big", some "big", none, none, none⟩]).pendingImageNodes
      = [] ∧
    mapGet? (handleStreamComplete (handleStreamNodeBatch (fun _ => true)
        resetConsumerState
        [⟨"n1", "IMAGE", some "big", some "big", none, none, none⟩])
        [100]).streamCreatedNodes "n1" = some CreatedKind.rendered ∧
    ¬ mapGet? (handleStreamComplete (handleStreamNodeBatch (fun _ => true)
        resetConsumerState
        [⟨"n1", "IMAGE", some "big", some "big", none, none, none⟩])
        [100]).streamCreatedNodes "n1" = some CreatedKind.placeholder := by
  exact ⟨by decide, by decide, by decide, by decide, by decide⟩

/-- C5 (amended): if an image's fetch fails entirely, the item still appears
in a NODES batch, carrying no chunk reference; no IMAGE_CHUNK envelope is ever
sent for its id; the failure counter is non-zero and the item is excluded
from the inline/streamed counts; and — unlike the original claim — the item
never enters the Pending Item Table (any batch free of streamed nodes with
its id leaves it un-pending), so COMPLETE-time finalization produces no
placeholder for it: its materialization happened at NODES time. -/
theorem failed_fetch_amended (cfg : Config) (fetch : String → Option (List Nat))
    (p : StreamPayload) (n : SNode) (url : String) (render : SNode → Bool)
    (hmem : n ∈ p.nodes) (himg : n.ntype = "IMAGE") (hurl : n.imageUrl = some url)
    (hrc : n.imageChunkRef = none) (hfail : fetch url = none)
    (hnodup : (p.nodes.map (·.id)).Nodup) :
    (∃ b s, Envelope.nodesMsg b s ∈ streamExtractedPage cfg fetch p ∧
       ({ n with imageSource := some url } : SNode) ∈ b ∧
       ({ n with imageSource := some url } : SNode).imageChunkRef = none) ∧
    (∀ e ∈ streamExtractedPage cfg fetch p, isChunkOf n.id e = false) ∧
    (1 ≤ (sessionStats cfg fetch p).failedImages ∧
      (sessionStats cfg fetch p).inlineImages + (sessionStats cfg fetch p).streamedImages
        < (sessionStats cfg fetch p).totalImages) ∧
    (∀ (st : ConsumerState) (nodes' : List SNode),
       mapGet? st.pendingImageNodes n.id = none →
       (∀ m ∈ nodes', m.id = n.id →
          (m.imageChunkRef.map ChunkRef.isStreamed).getD false = false) →
       mapGet? (handleStreamNodeBatch render st nodes').pendingImageNodes n.id = none) ∧
    (∀ (st : ConsumerState) (ticks : List Nat) (id : String),
       mapGet? st.pendingImageNodes id = none →
       mapGet? (handleStreamComplete st ticks).streamCreatedNodes id
         = mapGet? st.streamCreatedNodes id) := by
  have hx1 : ({ n with imageSource := some url } : SNode)
      ∈ (processAllImages cfg fetch initialStats 0 (attachImageSources p.nodes)).2.2.1 := by
    rw [processAllImages_nodes]
    exact List.mem_map.mpr ⟨_, attach_mem p.nodes n url hmem himg hurl,
      annotate_failed cfg fetch n url himg hfail⟩
  have hqual : qualifies ({ n with imageSource := some url } : SNode) = true := by
    unfold qualifies
    simp [himg]
  have hx0 : ({ n with imageSource := some url } : SNode) ∈ attachImageSources p.nodes :=
    attach_mem p.nodes n url hmem himg hurl
  have hm0 : ¬ ((attachImageSources p.nodes).filter qualifies).length = 0 := by
    intro hz
    have hnil : (attachImageSources p.nodes).filter qualifies = [] :=
      List.length_eq_zero.mp hz
    have hmemf : ({ n with imageSource := some url } : SNode)
        ∈ (attachImageSources p.nodes).filter qualifies :=
      List.mem_filter.mpr ⟨hx0, hqual⟩
    rw [hnil] at hmemf
    simp at hmemf
  refine ⟨?_, ?_, ?_,
    fun st nodes' h hall => batch_no_pending render nodes' st n.id h hall,
    fun st ticks id h => complete_preserves_unpending st ticks id h⟩
  · obtain ⟨s0, hsub⟩ := streamExtractedPage_has_nodes_section cfg fetch p
    obtain ⟨b, s, hbm, hxb⟩ := streamNodes_covers s0 _ _ hx1
    exact ⟨b, s, hsub _ hbm, hxb, hrc⟩
  · intro e he
    obtain ⟨front, s0, last, hfull, hfront, hlast⟩ :=
      streamExtractedPage_split cfg fetch p
    rw [hfull] at he
    rcases List.mem_append.mp he with h1 | h2
    · rcases List.mem_append.mp h1 with hfr | hch
      · exact hfront e hfr n.id
      · rcases streamImageChunks_shapes cfg s0 _ e hch with hh | hh
        · obtain ⟨nid, k, tc, d, s, he2, hmemid⟩ := hh
          subst he2
          unfold isChunkOf
          have hne : nid ≠ n.id := by
            intro heqid
            subst heqid
            rcases List.mem_map.mp hmemid with ⟨m, hmf, hmid⟩
            have hmfil := List.mem_filter.mp hmf
            have hmn1 := hmfil.1
            rw [processAllImages_nodes] at hmn1
            rcases List.mem_map.mp hmn1 with ⟨y, hy, hym⟩
            unfold attachImageSources at hy
            rcases List.mem_map.mp hy with ⟨z, hz, hzy⟩
            have hid1 : y.id = z.id := by
              rw [← hzy]
              by_cases hzt : z.ntype == "IMAGE"
              · simp only [hzt, if_true]
                cases z.imageUrl <;> rfl
              · simp [hzt]
            have hid2 : m.id = y.id := by
              rw [← hym]
              exact annotateNode_id cfg fetch y
            have hzid : z.id = n.id := by
              rw [← hid1, ← hid2]
              exact hmid
            have hzn : z = n := List.inj_on_of_nodup_map hnodup hz hmem hzid
            subst hzn
            have hy2 : y = { z with imageSource := some url } := by
              rw [← hzy]
              have hzt : (z.ntype == "IMAGE") = true := by simp [himg]
              simp only [hzt, if_true, hurl]
            have hm2 : m = { z with imageSource := some url } := by
              rw [← hym, hy2]
              exact annotate_failed cfg fetch z url himg hfail
            have hpred := hmfil.2
            rw [hm2] at hpred
            rw [show ({ z with imageSource := some url } : SNode).imageChunkRef
              = none from hrc] at hpred
            simp at hpred
          simp [hne]
        · obtain ⟨c, t, s, he2⟩ := hh
          subst he2
          rfl
    · rcases List.mem_singleton.mp h2 with rfl
      exact hlast n.id
  · have hfailed : 1 ≤ ((processNodes cfg fetch initialStats
        (attachImageSources p.nodes)).1).failedImages := by
      have := processNodes_failed_of_mem cfg fetch (attachImageSources p.nodes)
        initialStats ({ n with imageSource := some url }) url hx0 hqual rfl hfail
      simpa using this
    have hpart := processNodes_preserves cfg fetch (attachImageSources p.nodes)
      initialStats rfl
    unfold sessionStats
    rw [processAllImages_stats, if_neg hm0]
    omega

/-- Witness for C5 (amended) at the counterexample session. -/
theorem failed_fetch_amended_witness :
    ((⟨"n1", "IMAGE", some "big", none, none, none, none⟩ : SNode)
        ∈ [(⟨"n1", "IMAGE", some "big", none, none, none, none⟩ : SNode)] ∧
      ((fun _ : String => (none : Option (List Nat))) "big" = none)) ∧
    ((∃ b s, Envelope.nodesMsg b s ∈ streamExtractedPage ⟨3, 2, 5⟩ (fun _ => none)
          ⟨[⟨"n1", "IMAGE", some "big", none, none, none, none⟩], [], none⟩ ∧
        ({ (⟨"n1", "IMAGE", some "big", none, none, none, none⟩ : SNode) with
            imageSource := some "big" } : SNode) ∈ b ∧
        ({ (⟨"n1", "IMAGE", some "big", none, none, none, none⟩ : SNode) with
            imageSource := some "big" } : SNode).imageChunkRef = none) ∧
      (∀ e ∈ streamExtractedPage ⟨3, 2, 5⟩ (fun _ => none)
          ⟨[⟨"n1", "IMAGE", some "big", none, none, none, none⟩], [], none⟩,
        isChunkOf "n1" e = false) ∧
      (1 ≤ (sessionStats ⟨3, 2, 5⟩ (fun _ => none)
          ⟨[⟨"n1", "IMAGE", some "big", none, none, none, none⟩], [], none⟩).failedImages ∧
        (sessionStats ⟨3, 2, 5⟩ (fun _ => none)
            ⟨[⟨"n1", "IMAGE", some "big", none, none, none, none⟩], [], none⟩).inlineImages
          + (sessionStats ⟨3, 2, 5⟩ (fun _ => none)
            ⟨[⟨"n1", "IMAGE", some "big", none, none, none, none⟩], [], none⟩).streamedImages
          < (sessionStats ⟨3, 2, 5⟩ (fun _ => none)
            ⟨[⟨"n1", "IMAGE", some "big", none, none, none, none⟩], [], none⟩).totalImages) ∧
      (∀ (st : ConsumerState) (nodes' : List SNode),
        mapGet? st.pendingImageNodes "n1" = none →
        (∀ m ∈ nodes', m.id = "n1" →
          (m.imageChunkRef.map ChunkRef.isStreamed).getD false = false) →
        mapGet? (handleStreamNodeBatch (fun _ => true) st nodes').pendingImageNodes "n1"
          = none) ∧
      (∀ (st : ConsumerState) (ticks : List Nat) (id : String),
        mapGet? st.pendingImageNodes id = none →
        mapGet? (handleStreamComplete st ticks).streamCreatedNodes id
          = mapGet? st.streamCreatedNodes id)) :=
  ⟨⟨by decide, rfl⟩,
    failed_fetch_amended ⟨3, 2, 5⟩ (fun _ => none)
      ⟨[⟨"n1", "IMAGE", some "big", none, none, none, none⟩], [], none⟩
      ⟨"n1", "IMAGE", some "big", none, none, none, none⟩ "big" (fun _ => true)
      (by decide) rfl rfl rfl rfl (by decide)⟩

end Web2Figma
